import Mathlib

/-!
# rplacemap — verification of the ingestion / tile / timelapse pipeline

Shallow embedding of the `rplacemap` Go repository: the `dataset` package
(chunked per-pixel event index, ingestion, persisted-store codec), the
`tiles` package (snapshot sampling with whitening cutoff), the `timelapse`
package (`renderFrames`), the `gsync` completion-graph combinators, and
`main.loadDataset`.

Modelling conventions, uniform across the file:

* Go `time.Time` values are modelled as `Int` milliseconds on an absolute
  axis (the Go zero `time.Time` is the constant `goZeroTimeMillis`).
  `PixelEvent.DeltaMillis` is stored as `Int`; the `int32` truncation of
  `rec.Timestamp.Sub(d.Epoch).Milliseconds()` is not modelled (it is the
  identity for deltas within ±2^31 ms ≈ ±24.8 days of the epoch, which
  covers every dataset the program ingests and every claim below).
* Go slice indexing is modelled with `List.getD` (default value) where the
  surrounding code guarantees in-bounds access; the claims that touch these
  paths carry explicit in-bounds hypotheses, so the defaulted branch never
  differs from Go (which would panic out of bounds).
* Go maps used as incremental dictionaries (`colors map[color.RGBA]int`,
  `users map[string]int` with `m[k] = len(m)` insertion) are modelled as
  first-seen-order lists: the integer assigned to a key is its position in
  the list, exactly the value the Go code stores.
* gzip compression and gob binary framing are external stdlib collaborators;
  the persisted blob is modelled as the token stream produced by a
  field-by-field encoder mirroring the gob walk of the `Dataset` struct
  (see `gobEncodeDataset`).
-/

/-- Go's zero `time.Time` (January 1, year 1, UTC) in milliseconds relative
to the Unix epoch: `-62135596800000`.  `partialDataset.add` compares record
timestamps against a zero-initialized `d.End`, so this constant is the
initial accumulator of the end-time fold. -/
def goZeroTimeMillis : Int := -62135596800000

/-- `color.RGBA` from Go's `image/color`: four byte components. -/
structure GoRGBA where
  r : Nat
  g : Nat
  b : Nat
  a : Nat
deriving DecidableEq, Repr

/-- `dataset.PixelEvent`: one recorded placement, relative to the epoch.
`DeltaMillis` is `Int` (see module comment on `int32`), `UserIndex` the
position in the user dictionary, `ColorIndex` the palette byte. -/
structure PixelEvent where
  deltaMillis : Int
  userIndex : Int
  colorIndex : Nat
deriving DecidableEq, Repr

/-- `dataset.Chunk`: a 256×256 cell grid.  The Go field is the array
`Pixels [256][256][]PixelEvent`; it is modelled as a list of 256 rows of
256 cells (invariants carried as hypotheses where needed). -/
structure Chunk where
  width : Nat
  height : Nat
  pixels : List (List (List PixelEvent))
deriving DecidableEq, Repr

/-- `dataset.Version`, the encoding version tag checked by `Load`. -/
def datasetVersion : String := "rplacemap-encoding-v2"

/-- `dataset.FileSuffix`, required of every persisted-store filename. -/
def fileSuffix : String := ".gob.gz"

/-- `dataset.Dataset`: the finalized spatial-temporal index
(fields of the struct in `dataset.go`, times as `Int` milliseconds). -/
structure Dataset where
  version : String
  size : Nat
  palette : List GoRGBA
  epochMillis : Int
  startMillis : Int
  endMillis : Int
  chunkStride : Nat
  userIDs : List String
  chunks : List Chunk
deriving DecidableEq, Repr

/-- Read one cell of a chunk grid: `Pixels[row][col]`. -/
def Chunk.cell (c : Chunk) (row col : Nat) : List PixelEvent :=
  (c.pixels.getD row []).getD col []

/-- Cell `(r, c)` of the `i`-th chunk of a chunk list (out-of-range access,
a Go panic, is defaulted to the empty cell). -/
def cellAt (chunks : List Chunk) (i r c : Nat) : List PixelEvent :=
  (chunks.getD i ⟨0, 0, []⟩).cell r c

/-- `Dataset.At(row, col)`:
`d.Chunks[(row/256)*d.ChunkStride + col/256].Pixels[row%256][col%256]`.
Out-of-range chunk access (a Go panic) is defaulted to the empty chunk; all
claims touching `At` carry in-bounds hypotheses. -/
def Dataset.At (d : Dataset) (row col : Nat) : List PixelEvent :=
  cellAt d.chunks (row / 256 * d.chunkStride + col / 256) (row % 256) (col % 256)

/-- The cells of a chunk list, enumerated in order: every per-pixel event
sequence of every chunk. -/
def allCells (chunks : List Chunk) : List (List PixelEvent) :=
  (chunks.map fun c => c.pixels.flatten).flatten

/-- `dataset.RawRecord`: one parsed pixel placement.  Coordinates are `Nat`:
every coordinate the pipeline ingests under the claims below is
non-negative and in canvas range (a negative coordinate would panic Go's
chunk indexing). -/
structure RawRecord where
  timestampMillis : Int
  userHash : String
  x : Nat
  y : Nat
  color : GoRGBA
deriving DecidableEq, Repr

/-- The mutable builder `dataset.partialDataset`: the embedded `Dataset`
plus the two incremental dictionaries.  A Go map assigning `m[k] = len(m)`
at first sight is represented by the first-seen-order list of keys; the
index of a key is its list position. -/
structure PartialDataset where
  ds : Dataset
  users : List String
  colors : List GoRGBA
deriving DecidableEq, Repr

/-- `List.indexOf` spelled out for the dictionary lookup `d.colors[c]` /
`d.users[u]`: position of the first occurrence (length if absent — the
absent case never arises after the insertion step of `add`). -/
def dictIndex {α : Type} [DecidableEq α] : List α → α → Nat
  | [], _ => 0
  | x :: xs, k => if x = k then 0 else dictIndex xs k + 1

/-- Insert a key into a first-seen dictionary if it is not yet present
(the Go `if _, ok := m[k]; !ok { m[k] = len(m) }` step). -/
def dictInsert {α : Type} [DecidableEq α] (l : List α) (k : α) : List α :=
  if k ∈ l then l else l ++ [k]

/-- The spec-side reading of "distinct values in first-seen order": keep
each value's first occurrence, drop the later ones.  (Stated independently
of the builder; `foldl_dictInsert_eq_firstSeen` proves the incremental
dictionary builds exactly this list.) -/
def firstSeen {α : Type} [DecidableEq α] : List α → List α
  | [] => []
  | x :: xs => x :: (firstSeen xs).filter fun y => y ≠ x

/-- Write a cell of a chunk grid: the update
`c.Pixels[row][col] = append(c.Pixels[row][col], ev)` generalized to any
new cell value. -/
def Chunk.setCell (c : Chunk) (row col : Nat) (v : List PixelEvent) : Chunk :=
  { c with pixels := c.pixels.set row ((c.pixels.getD row []).set col v) }

/-- `(*partialDataset).add`: update `End`, insert color and user into the
dictionaries, then append the encoded event to
`Chunks[(rec.Y/256)*stride + rec.X/256].Pixels[rec.Y%256][rec.X%256]`
(`uint8(rec.X)`/`uint8(rec.Y)` are the mod-256 reductions). -/
def PartialDataset.add (d : PartialDataset) (rec : RawRecord) : PartialDataset :=
  let endMillis := if d.ds.endMillis < rec.timestampMillis then rec.timestampMillis
    else d.ds.endMillis
  let colors := dictInsert d.colors rec.color
  let users := dictInsert d.users rec.userHash
  let chunkIdx := rec.y / 256 * d.ds.chunkStride + rec.x / 256
  let ev : PixelEvent :=
    { deltaMillis := rec.timestampMillis - d.ds.epochMillis
      userIndex := Int.ofNat (dictIndex users rec.userHash)
      colorIndex := dictIndex colors rec.color }
  let c := d.ds.chunks.getD chunkIdx ⟨0, 0, []⟩
  let c := c.setCell (rec.y % 256) (rec.x % 256)
    (c.cell (rec.y % 256) (rec.x % 256) ++ [ev])
  { d with
    users := users
    colors := colors
    ds := { d.ds with
              endMillis := endMillis
              chunks := d.ds.chunks.set chunkIdx c } }

/-- The `PixelEvent` that `add` appends for a record: the delta against the
epoch, and the dictionary indices assigned after insertion. -/
def addedEvent (pd : PartialDataset) (rec : RawRecord) : PixelEvent :=
  { deltaMillis := rec.timestampMillis - pd.ds.epochMillis
    userIndex := Int.ofNat (dictIndex (dictInsert pd.users rec.userHash) rec.userHash)
    colorIndex := dictIndex (dictInsert pd.colors rec.color) rec.color }

/-- One step of the first-event fold of `finalize`, for one cell: take the
head delta if it lowers the accumulator. -/
def minStep (acc : Int) (cell : List PixelEvent) : Int :=
  match cell.head? with
  | none => acc
  | some e => if e.deltaMillis < acc then e.deltaMillis else acc

/-- The comparison closure passed to `sort.Slice` in `finalize`:
ascending by `DeltaMillis`, ties unordered (`return false`). -/
def eventLE (a b : PixelEvent) : Bool := a.deltaMillis ≤ b.deltaMillis

/-- `math.MaxInt32`, the initial accumulator of the first-event fold in
`finalize`. -/
def maxInt32 : Int := 2147483647

/-- The first-event fold of `finalize`: over every cell of every chunk,
the minimum head `DeltaMillis` of the (sorted) non-empty cells, starting
from `math.MaxInt32`.  After sorting, the head of a non-empty cell is its
minimum, so this is the least delta across all events. -/
def firstDelta (chunks : List Chunk) : Int :=
  chunks.foldl (fun acc c =>
    c.pixels.foldl (fun acc row => row.foldl minStep acc) acc) maxInt32

/-- Sort every cell of every chunk with the `finalize` comparator (Go sorts
in place through the shared slice backing; the net effect is this map). -/
def sortChunks (chunks : List Chunk) : List Chunk :=
  chunks.map fun c =>
    { c with pixels := c.pixels.map fun row => row.map fun cell =>
        cell.mergeSort eventLE }

/-- `(*partialDataset).finalize`: fatal (`glog.Fatalf`, so no `Dataset` is
ever returned) when the color dictionary exceeds 256 entries; otherwise
freeze the dictionaries into `Palette`/`UserIDs`, sort every cell, and set
`Start` from the least delta. -/
def PartialDataset.finalize (d : PartialDataset) : Option Dataset :=
  if 256 < d.colors.length then none
  else
    let chunks := sortChunks d.ds.chunks
    some { d.ds with
            userIDs := d.users
            palette := d.colors
            chunks := chunks
            startMillis := d.ds.epochMillis + firstDelta chunks }

/-- `(*Source).makeChunks`: `stride = (CanvasSize+255)/256` chunks per row,
`stride*stride` chunks, full 256×256 capacity each, edge chunks marked with
the smaller effective `Width`/`Height`. -/
def makeChunks (canvasSize : Nat) : List Chunk × Nat :=
  let stride := (canvasSize + 255) / 256
  let chunks := (List.range (stride * stride)).map fun i =>
    { width := if i % stride = stride - 1 then canvasSize % 256 + 1 else 256
      height := if i / stride = stride - 1 then canvasSize % 256 + 1 else 256
      pixels := List.replicate 256 (List.replicate 256 ([] : List PixelEvent)) }
  (chunks, stride)

/-- The `Dataset` literal built at the top of `dataset.Download`, before any
record is ingested.  `epochMillis` stands for
`time.Date(src.Year, 4, 1, 0, 0, 0, 0, time.UTC)` — calendar arithmetic is
the stdlib's, so the resulting millisecond value is a parameter. -/
def initialDataset (canvasSize : Nat) (epochMillis : Int) : Dataset :=
  let (chunks, stride) := makeChunks canvasSize
  { version := datasetVersion
    size := canvasSize
    palette := []
    epochMillis := epochMillis
    startMillis := goZeroTimeMillis
    endMillis := goZeroTimeMillis
    chunkStride := stride
    userIDs := []
    chunks := chunks }

/-- The sequential data path of `dataset.Download` once the shard lines are
parsed: fold `add` over the records, then `finalize` (the deferred
`prep.finalize()`). -/
def ingestRecords (canvasSize : Nat) (epochMillis : Int)
    (records : List RawRecord) : Option Dataset :=
  (records.foldl PartialDataset.add
    { ds := initialDataset canvasSize epochMillis, users := [], colors := [] }).finalize

/-! ## Ingestion Coordinator: shard streams (`source.go`) -/

/-- A `dataset.Source` as the claims exercise it: the canvas size, the epoch
(the millisecond value of `time.Date(Year, 4, 1, 0, 0, 0, 0, time.UTC)`,
supplied as a parameter since calendar arithmetic is the stdlib's), the
expected header line, and the line parser. -/
structure SourceModel where
  canvasSize : Nat
  epochMillis : Int
  header : String
  parseLine : String → Except String (List RawRecord)

/-- The header handling of `(*Source).download`: the body checks
`lineno == 1 && line == s.Header` and skips the line only when both hold;
a first line that differs from the header falls through to `pending` and
is forwarded to the consumer as an ordinary data line. -/
def shardDataLines (header : String) : List String → List String
  | [] => []
  | first :: rest => if first = header then rest else first :: rest

/-- The consumer side of `Download`'s select loop for one batch of lines:
parse each line in order, aborting the whole run on the first parse error
(`return nil, fmt.Errorf("download[%d]: line %d ...")`), otherwise folding
every produced record into the builder with `add`. -/
def processLines (parse : String → Except String (List RawRecord)) :
    PartialDataset → List String → Except String PartialDataset
  | pd, [] => .ok pd
  | pd, line :: rest =>
    match parse line with
    | .error e => .error e
    | .ok records => processLines parse (records.foldl PartialDataset.add pd) rest

/-- `dataset.Download` with the shard byte streams given as line lists: each
shard's first line is header-checked, every remaining line flows through the
single sequential consumption point, and the first error aborts the run with
no `Dataset`.  (The select-loop interleaving of shard batches is abstracted
to per-shard order; the claims below do not distinguish interleavings.)
`finalize` runs at the end, fatal on palette overflow. -/
def downloadRun (src : SourceModel) (shards : List (List String)) :
    Except String Dataset :=
  match shards.foldlM
      (fun pd shard => processLines src.parseLine pd (shardDataLines src.header shard))
      { ds := initialDataset src.canvasSize src.epochMillis, users := [], colors := [] } with
  | .error e => .error e
  | .ok pd =>
    match pd.finalize with
    | none => .error "color palette exceeds one byte"
    | some ds => .ok ds

/-! ## The 2017 line parser (`source_2017.go`) -/

/-- `palette2017`: the fixed 16-color palette used to translate 2017 color
indices into RGBA values. -/
def palette2017 : List GoRGBA :=
  [⟨0xFF, 0xFF, 0xFF, 0xFF⟩, ⟨0xE4, 0xE4, 0xE4, 0xFF⟩, ⟨0x88, 0x88, 0x88, 0xFF⟩,
   ⟨0x22, 0x22, 0x22, 0xFF⟩, ⟨0xFF, 0xA7, 0xD1, 0xFF⟩, ⟨0xE5, 0x00, 0x00, 0xFF⟩,
   ⟨0xE5, 0x95, 0x00, 0xFF⟩, ⟨0xA0, 0x6A, 0x42, 0xFF⟩, ⟨0xE5, 0xD9, 0x00, 0xFF⟩,
   ⟨0x94, 0xE0, 0x44, 0xFF⟩, ⟨0x02, 0xBE, 0x01, 0xFF⟩, ⟨0x00, 0xE5, 0xF0, 0xFF⟩,
   ⟨0x00, 0x83, 0xC7, 0xFF⟩, ⟨0x00, 0x00, 0xEA, 0xFF⟩, ⟨0xE0, 0x4A, 0xFF, 0xFF⟩,
   ⟨0x82, 0x00, 0x80, 0xFF⟩]

/-- `header2017`, the expected first line of the 2017 shard. -/
def header2017 : String := "ts,user_hash,x_coordinate,y_coordinate,color"

/-- `strings.Split(line, ",")` for the single-character separator the
parsers use: split at every separator, keeping empty segments (the empty
string yields one empty segment). -/
def splitChars (sep : Char) : List Char → List (List Char)
  | [] => [[]]
  | c :: cs =>
    match splitChars sep cs with
    | [] => [[c]]
    | cur :: done => if c = sep then [] :: cur :: done else (c :: cur) :: done

/-- Split a string on commas, Go `strings.Split` semantics. -/
def goSplitComma (s : String) : List String :=
  (splitChars ',' s.toList).map String.mk

/-- Digits of a decimal string, `none` unless non-empty and all digits
(the accepting core of `strconv.Atoi` / `strconv.ParseUint`; integer
overflow of huge literals is not modelled). -/
def decDigits : List Char → Option Nat
  | [] => none
  | cs => cs.foldlM (fun acc c =>
      if c.isDigit then some (acc * 10 + (c.toNat - '0'.toNat)) else none) 0

/-- `strconv.Atoi`: optional sign followed by digits. -/
def goAtoi (s : String) : Except String Int :=
  match s.toList with
  | '+' :: rest =>
    match decDigits rest with
    | some n => .ok (Int.ofNat n)
    | none => .error "invalid syntax"
  | '-' :: rest =>
    match decDigits rest with
    | some n => .ok (-(Int.ofNat n))
    | none => .error "invalid syntax"
  | cs =>
    match decDigits cs with
    | some n => .ok (Int.ofNat n)
    | none => .error "invalid syntax"

/-- `strconv.ParseUint(s, 10, 8)`: digits only, value below 256. -/
def goParseUint8 (s : String) : Except String Nat :=
  match decDigits s.toList with
  | some n => if n < 256 then .ok n else .error "value out of range"
  | none => .error "invalid syntax"

/-- `parseLine2017`: split on commas, demand 5 columns, silently skip lines
with an empty x/y/color field (`return nil, nil`), otherwise parse the
fields and translate the color index through `palette2017`.
`time.Parse(TimestampLayout, ·)` is a stdlib collaborator and is passed in
as `timeParse` (returning the parsed instant in milliseconds); every other
field parser is embedded.  A Go panic on `palette2017[colorIndex]` with
index ≥ 16 is defaulted (the 2017 data never exceeds 15), and a negative
parsed coordinate (which would panic Go's chunk indexing downstream) is
clamped by `Int.toNat`; neither path is exercised by any claim. -/
def parseLine2017 (timeParse : String → Except String Int) (line : String) :
    Except String (List RawRecord) :=
  let fields := goSplitComma line
  if fields.length ≠ 5 then .error "columns"
  else
    let tsStr := fields.getD 0 ""
    let userHash := fields.getD 1 ""
    let xStr := fields.getD 2 ""
    let yStr := fields.getD 3 ""
    let colorStr := fields.getD 4 ""
    if xStr.length = 0 ∨ yStr.length = 0 ∨ colorStr.length = 0 then .ok []
    else
      match timeParse tsStr with
      | .error e => .error ("timestamp invalid: " ++ e)
      | .ok ts =>
        match goAtoi xStr with
        | .error e => .error ("x coordinate invalid: " ++ e)
        | .ok x =>
          match goAtoi yStr with
          | .error e => .error ("y coordinate invalid: " ++ e)
          | .ok y =>
            match goParseUint8 colorStr with
            | .error e => .error ("color invalid: " ++ e)
            | .ok colorIndex =>
              .ok [{ timestampMillis := ts
                     userHash := userHash
                     x := x.toNat
                     y := y.toNat
                     color := palette2017.getD colorIndex ⟨0, 0, 0, 0⟩ }]

/-- The 2017 source (`Dataset2017`): canvas 1001, epoch April 1 2017 UTC
(`1491004800000` ms), the 2017 header, the 2017 parser. -/
def source2017 (timeParse : String → Except String Int) : SourceModel :=
  { canvasSize := 1001
    epochMillis := 1491004800000
    header := header2017
    parseLine := parseLine2017 timeParse }

/-! ## Tile Renderer (`tiles/tiles.go`) -/

/-- One step of the whitening-cutoff scan, for one event: take the delta
if the event's color is not reserved neutral (`ColorIndex > 2`) and it is
later than the accumulator. -/
def nwStep (acc : Int) (ev : PixelEvent) : Int :=
  if 2 < ev.colorIndex then
    if acc < ev.deltaMillis then ev.deltaMillis else acc
  else acc

/-- The whitening-cutoff scan at the top of the `tiles.Handler` transform:
over every event of every cell, the latest `DeltaMillis` among events with
`ColorIndex > 2` (palette slots 0, 1, 2 are the reserved neutral colors:
transparent, black, white), starting from 0. -/
def lastNonwhitePixel (ds : Dataset) : Int :=
  ds.chunks.foldl (fun acc c =>
    c.pixels.foldl (fun acc row =>
      row.foldl (fun acc events => events.foldl nwStep acc) acc) acc) 0

/-- The per-cell scan of the transform: walk the cell's events from the end
(`for i := len(ev) - 1; i >= 0; i--`), skip events after the cutoff, and
stop at the first one at or before it. -/
def lastPreCutoff (cutoff : Int) (events : List PixelEvent) : Option PixelEvent :=
  events.reverse.find? fun e => e.deltaMillis ≤ cutoff

/-- The byte stored in `pixels[r][c]`: the color of the scan's hit, or the
zero initialization when the cell is empty or every event postdates the
cutoff. -/
def snapshotCellColor (cutoff : Int) (events : List PixelEvent) : Nat :=
  match lastPreCutoff cutoff events with
  | some e => e.colorIndex
  | none => 0

/-- The shared pixel buffer computed once by the `tiles.Handler` transform:
a `ChunkStride*256` square (a multiple of 256 for Leaflet), cell `(r, c)`
holding `snapshotCellColor` of `ds.At(r, c)`. -/
def tilePixels (ds : Dataset) : List (List Nat) :=
  let size := ds.chunkStride * 256
  (List.range size).map fun r =>
    (List.range size).map fun c =>
      snapshotCellColor (lastNonwhitePixel ds) (ds.At r c)

/-- `tiles.window`: the `image.Image` a tile request renders. -/
structure Window where
  size : Nat
  canvasSize : Nat
  pixelData : List (List Nat)
  palette : List GoRGBA
  tileX : Nat
  tileY : Nat
  tileWidth : Nat
  tileHeight : Nat
  pixelScale : Nat
  globalScale : Nat

/-- The fully transparent boundary pixel `tiles.transparentWhite`. -/
def transparentWhite : GoRGBA := ⟨255, 255, 255, 0⟩

/-- `w.Palette[idx]` (a Go panic past the palette length is defaulted; the
claims below equate both sides under the same lookup). -/
def paletteColor (palette : List GoRGBA) (idx : Nat) : GoRGBA :=
  palette.getD idx ⟨0, 0, 0, 0⟩

/-- `(window).At`: map the tile pixel to a canvas coordinate by
`x * GlobalScale / PixelScale` (nearest-neighbor decimation), return the
transparent boundary pixel outside `[0, CanvasSize)`, else look the stored
byte up in the palette.  Tile coordinates are `Nat`: the handler parses
them from a digits-only URL pattern, so the `pX < 0 || pY < 0` arm of the
Go guard is vacuous. -/
def Window.At (w : Window) (x y : Nat) : GoRGBA :=
  let pX := x * w.globalScale / w.pixelScale
  let pY := y * w.globalScale / w.pixelScale
  if w.canvasSize ≤ pY ∨ w.canvasSize ≤ pX then transparentWhite
  else paletteColor w.palette ((w.pixelData.getD pY []).getD pX 0)

/-- The `window` literal built by the tile request handler for tile
`(tx, ty)` at zoom `z` with tile size `tw×th`: pixel data and palette from
the shared transform output, `CanvasSize` from `ds.Size`, `GlobalScale`
from `ds.ChunkStride`, `PixelScale = 1 << z`. -/
def handlerWindow (ds : Dataset) (tx ty tw th z : Nat) : Window :=
  { size := (tilePixels ds).length
    canvasSize := ds.size
    pixelData := tilePixels ds
    palette := ds.palette
    tileX := tx
    tileY := ty
    tileWidth := tw
    tileHeight := th
    pixelScale := 2 ^ z
    globalScale := ds.chunkStride }

/-! ## Timelapse Renderer (`timelapse/timelapse.go`) -/

/-- `timelapse.Dimension`, the fixed canvas edge of the 2017 timelapse. -/
def timelapseDimension : Nat := 1001

/-- The record type `renderFrames` consumes (the `dataset.Record` vintage
used by the timelapse package): absolute timestamp in Unix milliseconds,
coordinates, palette color byte. -/
structure TLRecord where
  unixMillis : Int
  x : Int
  y : Int
  color : Nat
deriving DecidableEq, Repr

/-- One pixel write of the inner loop:
`pixels[int(current.Y)*Dimension+int(current.X)] = current.Color`.
(`List.set` out of range is a no-op where Go would panic on a coordinate
outside the canvas; the claims use in-range records.) -/
def tlWrite (pixels : List Nat) (rec : TLRecord) : List Nat :=
  pixels.set (rec.y * timelapseDimension + rec.x).toNat rec.color

/-- The inner loop of `renderFrames`: drain records strictly before the
bucket's upper edge (`if current.UnixMillis >= endDeltaMillis break`),
writing each into the shared buffer; return the buffer and the rest. -/
def consumeBucket (endMillis : Int) : List TLRecord → List Nat → List Nat × List TLRecord
  | [], pixels => (pixels, [])
  | r :: rest, pixels =>
    if endMillis ≤ r.unixMillis then (pixels, r :: rest)
    else consumeBucket endMillis rest (tlWrite pixels r)

/-- The outer loop of `renderFrames`: while records are pending, set the
bucket's upper edge to `pending[0].UnixMillis + frameAggregation`, drain
the bucket, and snapshot the buffer as a frame.  `fuel` bounds the
iteration count for totality; with a positive aggregation width every
iteration consumes at least the head record, so fuel equal to the pending
length is never exhausted (`renderLoop_fuel_free`). -/
def renderLoop (widthMillis : Int) : Nat → List TLRecord → List Nat → List (List Nat)
  | 0, _, _ => []
  | _ + 1, [], _ => []
  | fuel + 1, r :: rest, pixels =>
    let endM := r.unixMillis + widthMillis
    let step := consumeBucket endM (r :: rest) pixels
    step.1 :: renderLoop widthMillis fuel step.2 step.1

/-- The zero-initialized shared pixel buffer of `renderFrames`. -/
def initialTimelapsePixels : List Nat :=
  List.replicate (timelapseDimension * timelapseDimension) 0

/-- Spec-side: apply a list of records to a pixel buffer, in order. -/
def applyRecords (pixels : List Nat) (rs : List TLRecord) : List Nat :=
  rs.foldl tlWrite pixels

/-- Spec-side: the upper edges of the buckets `renderFrames` produces —
each bucket's edge is the first pending record's timestamp plus the
aggregation width, and the bucket drains the records strictly before it. -/
def bucketEdges (widthMillis : Int) : Nat → List TLRecord → List Int
  | 0, _ => []
  | _ + 1, [] => []
  | fuel + 1, r :: rest =>
    (r.unixMillis + widthMillis) ::
      bucketEdges widthMillis fuel
        ((r :: rest).dropWhile fun x => x.unixMillis < r.unixMillis + widthMillis)

/-- The spec example's two records: red (palette index 5) then blue
(palette index 13) at (0,0), 120 ms apart. -/
def c7Records : List TLRecord :=
  [{ unixMillis := 0, x := 0, y := 0, color := 5 },
   { unixMillis := 120, x := 0, y := 0, color := 13 }]

/-- `timelapse.TrailerFrames`. -/
def trailerFrames : Nat := 100

/-- `renderFrames`: the bucket frames followed by `TrailerFrames` duplicate
copies of `frames[len(frames)-1]`.  That trailing index is out of bounds (a
Go panic) when no frame was produced, modelled as `none`. -/
def renderFrames (records : List TLRecord) (widthMillis : Int) :
    Option (List (List Nat)) :=
  let frames := renderLoop widthMillis records.length records initialTimelapsePixels
  match frames.getLast? with
  | none => none
  | some last => some (frames ++ List.replicate trailerFrames last)

/-! ## Completion Graph (`internal/gsync`)

`gsync.After(f1, xfrm)` spawns exactly one background goroutine per derived
future; that goroutine waits for the source, and its straight-line body
either propagates the source failure (no transform call) or calls `xfrm`
exactly once and publishes the result.  `Future.Wait` only selects on the
ready channel — its body contains no call to the transform.  The model
records each task as the list of relevant primitive actions its body
executes, and quantifies over every interleaving of those tasks. -/

/-- The primitive actions of the gsync model. -/
inductive GsyncAction
  | callTransform
  | provideResult
  | waitReturn
deriving DecidableEq, Repr

/-- The body of the goroutine `After` spawns: on source failure, propagate
the failure (`f2.Provide(zero, f1.err)`); on success, call the transform
once and publish (`f2.Provide(xfrm(f1.value))`). -/
def afterTaskActions (sourceFailed : Bool) : List GsyncAction :=
  if sourceFailed then [.provideResult]
  else [.callTransform, .provideResult]

/-- The body of one `Future.Wait` call: select on the channels and return.
No transform call appears. -/
def waitActions : List GsyncAction := [.waitReturn]

/-- The tasks alive for one derived future with `waiters` concurrent
waiters: the single background task of `After`, plus one `Wait` per
waiter. -/
def derivedTasks (sourceFailed : Bool) (waiters : Nat) : List (List GsyncAction) :=
  afterTaskActions sourceFailed :: List.replicate waiters waitActions

/-- `Interleaving tasks trace`: the scheduler repeatedly picks any task and
executes its next action; `trace` is the global order observed.  Every
concurrent execution of the task set is one of these traces. -/
inductive Interleaving : List (List GsyncAction) → List GsyncAction → Prop
  | nil : Interleaving [] []
  | dropDone (pre post : List (List GsyncAction)) (tr : List GsyncAction) :
      Interleaving (pre ++ post) tr → Interleaving (pre ++ [] :: post) tr
  | step (pre post : List (List GsyncAction)) (a : GsyncAction)
      (rest tr : List GsyncAction) :
      Interleaving (pre ++ rest :: post) tr →
      Interleaving (pre ++ (a :: rest) :: post) (a :: tr)

/-! ## `main.loadDataset` (`main.go`) -/

/-- The environment `loadDataset` consults: whether `--year` names a known
source, whether the cache file exists (`os.Stat` / `os.IsNotExist`),
whether `--download` forces re-ingestion, and the outcomes of the two
collaborators `dataset.Download` and `dataset.Load`.  (The `MkdirAll` and
non-not-exist `Stat` error arms are orthogonal hard failures and are left
out.) -/
structure LoadEnv where
  yearKnown : Bool
  cacheFileExists : Bool
  downloadFlag : Bool
  downloadResult : Except String Dataset
  loadResult : Except String Dataset

/-- `main.loadDataset`: unknown year is an error; a missing cache file or
`--download` runs fresh ingestion (wrapping its error); otherwise the cache
file is loaded with `dataset.Load`, and a load failure is returned as
`failed to load dataset` — there is no fallback to ingestion on that path
(the surfaced error text tells the user to re-run with `--download`). -/
def loadDataset (env : LoadEnv) : Except String Dataset :=
  if env.yearKnown = false then .error "no known data source for --year"
  else if env.cacheFileExists = false || env.downloadFlag then
    match env.downloadResult with
    | .error e => .error ("failed to download dataset: " ++ e)
    | .ok ds => .ok ds
  else
    match env.loadResult with
    | .error e => .error ("failed to load dataset: " ++ e)
    | .ok ds => .ok ds

/-! ## Persisted Store Codec (`SaveTo` / `writeTemp` / `Load`)

`writeTemp` streams `gob(Dataset)` through gzip into a temp file and
`SaveTo` moves it into place; `Load` reverses the two stdlib layers and
decodes.  gzip is a bijective transport layer and gob a reflection-driven
field walk, both stdlib collaborators; the persisted blob is modelled as
the token stream of a field-by-field encoder that mirrors gob's walk of
the `Dataset` struct (strings and slices length-prefixed, fields in
declaration order). -/

/-- Encode a `Nat` field as one token. -/
def encNat (n : Nat) : List Int := [Int.ofNat n]

/-- Encode an `Int` field (a millisecond instant) as one token. -/
def encInt (i : Int) : List Int := [i]

/-- Encode a slice: length prefix, then the encoded elements back to back. -/
def encList {α : Type} (enc : α → List Int) (l : List α) : List Int :=
  Int.ofNat l.length :: l.flatMap enc

/-- Encode a string: length prefix, then the character scalars. -/
def encString (s : String) : List Int :=
  encList (fun c => [Int.ofNat c.toNat]) s.toList

/-- Encode a `color.RGBA` palette entry. -/
def encRGBA (c : GoRGBA) : List Int :=
  [Int.ofNat c.r, Int.ofNat c.g, Int.ofNat c.b, Int.ofNat c.a]

/-- Encode one `PixelEvent`. -/
def encEvent (e : PixelEvent) : List Int :=
  [e.deltaMillis, e.userIndex, Int.ofNat e.colorIndex]

/-- Encode one `Chunk`: width, height, then the cell grid. -/
def encChunk (c : Chunk) : List Int :=
  encNat c.width ++ encNat c.height ++
    encList (encList (encList encEvent)) c.pixels

/-- The gob walk of the `Dataset` struct, fields in declaration order. -/
def gobEncodeDataset (d : Dataset) : List Int :=
  encString d.version ++ encNat d.size ++ encList encRGBA d.palette ++
    encInt d.epochMillis ++ encInt d.startMillis ++ encInt d.endMillis ++
    encNat d.chunkStride ++ encList encString d.userIDs ++
    encList encChunk d.chunks

/-- Decode one token. -/
def decInt : List Int → Option (Int × List Int)
  | [] => none
  | t :: ts => some (t, ts)

/-- Decode one non-negative token. -/
def decNat (ts : List Int) : Option (Nat × List Int) :=
  match decInt ts with
  | none => none
  | some (i, ts) => if 0 ≤ i then some (i.toNat, ts) else none

/-- Decode exactly `n` consecutive elements, threading the rest. -/
def decCount {α : Type} (dec : List Int → Option (α × List Int)) :
    Nat → List Int → Option (List α × List Int)
  | 0, ts => some ([], ts)
  | n + 1, ts =>
    match dec ts with
    | none => none
    | some (x, ts) =>
      match decCount dec n ts with
      | none => none
      | some (xs, ts) => some (x :: xs, ts)

/-- Decode a length-prefixed slice. -/
def decList {α : Type} (dec : List Int → Option (α × List Int))
    (ts : List Int) : Option (List α × List Int) :=
  match decNat ts with
  | none => none
  | some (n, ts) => decCount dec n ts

/-- Decode one character scalar. -/
def decChar (ts : List Int) : Option (Char × List Int) :=
  match decNat ts with
  | none => none
  | some (n, ts) => some (Char.ofNat n, ts)

/-- Decode a length-prefixed string. -/
def decString (ts : List Int) : Option (String × List Int) :=
  match decList decChar ts with
  | none => none
  | some (cs, ts) => some (String.mk cs, ts)

/-- Decode a palette entry. -/
def decRGBA (ts : List Int) : Option (GoRGBA × List Int) :=
  match decNat ts with
  | none => none
  | some (r, ts) =>
    match decNat ts with
    | none => none
    | some (g, ts) =>
      match decNat ts with
      | none => none
      | some (b, ts) =>
        match decNat ts with
        | none => none
        | some (a, ts) => some (⟨r, g, b, a⟩, ts)

/-- Decode one `PixelEvent`. -/
def decEvent (ts : List Int) : Option (PixelEvent × List Int) :=
  match decInt ts with
  | none => none
  | some (d, ts) =>
    match decInt ts with
    | none => none
    | some (u, ts) =>
      match decNat ts with
      | none => none
      | some (c, ts) => some (⟨d, u, c⟩, ts)

/-- Decode one `Chunk`. -/
def decChunk (ts : List Int) : Option (Chunk × List Int) :=
  match decNat ts with
  | none => none
  | some (w, ts) =>
    match decNat ts with
    | none => none
    | some (h, ts) =>
      match decList (decList (decList decEvent)) ts with
      | none => none
      | some (px, ts) => some (⟨w, h, px⟩, ts)

/-- Decode the full `Dataset` struct, fields in declaration order. -/
def gobDecodeDataset (ts : List Int) : Option (Dataset × List Int) :=
  match decString ts with
  | none => none
  | some (version, ts) =>
    match decNat ts with
    | none => none
    | some (size, ts) =>
      match decList decRGBA ts with
      | none => none
      | some (palette, ts) =>
        match decInt ts with
        | none => none
        | some (epoch, ts) =>
          match decInt ts with
          | none => none
          | some (startM, ts) =>
            match decInt ts with
            | none => none
            | some (endM, ts) =>
              match decNat ts with
              | none => none
              | some (stride, ts) =>
                match decList decString ts with
                | none => none
                | some (userIDs, ts) =>
                  match decList decChunk ts with
                  | none => none
                  | some (chunks, ts) =>
                    some (⟨version, size, palette, epoch, startM, endM,
                           stride, userIDs, chunks⟩, ts)

/-- `strings.HasSuffix`. -/
def goHasSuffix (s suffix : String) : Bool :=
  suffix.toList.isSuffixOf s.toList

/-- `(*Dataset).SaveTo`: reject a filename without the `.gob.gz` suffix,
else write the encoded stream to a temp file and atomically move it into
place; the result is the content of the named file. -/
def saveTo (d : Dataset) (outputFile : String) : Except String (List Int) :=
  if goHasSuffix outputFile fileSuffix = false then
    .error "output file does not have required suffix"
  else .ok (gobEncodeDataset d)

/-- `dataset.Load` of a file with the given content: reject a filename
without the suffix, decompress and gob-decode (a short or malformed stream
is a decode error), then reject a version tag different from
`dataset.Version`. -/
def loadFile (filename : String) (content : List Int) : Except String Dataset :=
  if goHasSuffix filename fileSuffix = false then
    .error "input file does not have required suffix"
  else
    match gobDecodeDataset content with
    | none => .error "decoding dataset"
    | some (ds, _) =>
      if ds.version ≠ datasetVersion then .error "version mismatch"
      else .ok ds

/-! # Theorems -/

/-! ## C4 — persisted-store load failure handling (`main.loadDataset`) -/

/-- A concrete environment: the cache file exists, `--download` is not set,
`dataset.Load` fails with a version mismatch, and fresh ingestion would
succeed. -/
def c4Env : LoadEnv :=
  { yearKnown := true
    cacheFileExists := true
    downloadFlag := false
    downloadResult := .ok (initialDataset 4 0)
    loadResult := .error "version mismatch" }

/-- C4 counterexample: with a cached file whose load fails and a raw source
whose ingestion would succeed, `loadDataset` returns the load error — the
program fails (main exits via `glog.Fatalf`) instead of falling back to
fresh ingestion. -/
theorem loadDataset_no_fallback_counterexample :
    loadDataset c4Env = .error "failed to load dataset: version mismatch" ∧
      c4Env.downloadResult = .ok (initialDataset 4 0) :=
  ⟨rfl, rfl⟩

/-- C4 (amended): a persisted-store load failure is a hard failure of
`loadDataset` (surfaced as `failed to load dataset: …`; `main` then exits),
not a fallback to fresh ingestion; and a failed load never leaks a dataset:
any dataset `loadDataset` returns came from a successful `dataset.Load`
(which version-checks it) or from fresh ingestion. -/
theorem loadDataset_load_failure_is_fatal (env : LoadEnv) :
    (∀ e, env.yearKnown = true → env.cacheFileExists = true →
      env.downloadFlag = false → env.loadResult = .error e →
      loadDataset env = .error ("failed to load dataset: " ++ e)) ∧
    (∀ ds, loadDataset env = .ok ds →
      env.loadResult = .ok ds ∨ env.downloadResult = .ok ds) := by
  constructor
  · intro e hy hc hd hl
    simp [loadDataset, hy, hc, hd, hl]
  · intro ds h
    unfold loadDataset at h
    split at h
    · exact absurd h (by simp)
    · split at h
      · right
        cases hdl : env.downloadResult with
        | error e => rw [hdl] at h; exact absurd h (by simp)
        | ok d => rw [hdl] at h; simp at h; rw [h]
      · left
        cases hl : env.loadResult with
        | error e => rw [hl] at h; exact absurd h (by simp)
        | ok d => rw [hl] at h; simp at h; rw [h]

/-- C4 witness: the amended theorem applied to the concrete environment. -/
theorem loadDataset_load_failure_is_fatal_witness :
    loadDataset c4Env = .error ("failed to load dataset: " ++ "version mismatch") :=
  (loadDataset_load_failure_is_fatal c4Env).1 "version mismatch" rfl rfl rfl rfl

/-! ## C9 — at-most-once transform invocation (`gsync.After`) -/

/-- In any interleaved trace of a task set, each action occurs exactly as
often as the tasks' bodies contain it. -/
theorem interleaving_count (ts : List (List GsyncAction)) (tr : List GsyncAction)
    (h : Interleaving ts tr) (a : GsyncAction) :
    tr.count a = (ts.map fun t => t.count a).sum := by
  induction h with
  | nil => simp
  | dropDone pre post tr _ ih =>
    simp only [List.map_append, List.sum_append, List.map_cons, List.sum_cons,
      List.count_nil] at ih ⊢
    omega
  | step pre post b rest tr _ ih =>
    simp only [List.map_append, List.sum_append, List.map_cons, List.sum_cons,
      List.count_cons] at ih ⊢
    omega

/-- C9: for a derived future (`gsync.After`), in every interleaving of the
single background task with any number `n` of concurrent waiters, the
transform is invoked at most once. -/
theorem after_transform_at_most_once (sourceFailed : Bool) (n : Nat)
    (tr : List GsyncAction)
    (h : Interleaving (derivedTasks sourceFailed n) tr) :
    tr.count .callTransform ≤ 1 := by
  rw [interleaving_count _ _ h]
  simp only [derivedTasks, List.map_cons, List.sum_cons, List.map_replicate]
  have hw : waitActions.count GsyncAction.callTransform = 0 := rfl
  rw [hw]
  simp only [List.sum_replicate, smul_eq_mul, Nat.mul_zero, Nat.add_zero]
  cases sourceFailed <;> simp [afterTaskActions]

/-- C9 witness: a concrete interleaving of the background task with two
waiters (source succeeded), checked against the theorem. -/
theorem after_transform_at_most_once_witness :
    Interleaving (derivedTasks false 2)
      [.callTransform, .provideResult, .waitReturn, .waitReturn] ∧
    List.count GsyncAction.callTransform
      [.callTransform, .provideResult, .waitReturn, .waitReturn] ≤ 1 := by
  have h7 : Interleaving [] [] := .nil
  have h6 : Interleaving [[]] [] := .dropDone [] [] [] h7
  have h5 : Interleaving [[.waitReturn]] [.waitReturn] :=
    .step [] [] .waitReturn [] [] h6
  have h4 : Interleaving [[], [.waitReturn]] [.waitReturn] :=
    .dropDone [] [[.waitReturn]] [.waitReturn] h5
  have h3 : Interleaving [[.waitReturn], [.waitReturn]] [.waitReturn, .waitReturn] :=
    .step [] [[.waitReturn]] .waitReturn [] [.waitReturn] h4
  have h2 : Interleaving [[], [.waitReturn], [.waitReturn]] [.waitReturn, .waitReturn] :=
    .dropDone [] [[.waitReturn], [.waitReturn]] [.waitReturn, .waitReturn] h3
  have h1 : Interleaving [[.provideResult], [.waitReturn], [.waitReturn]]
      [.provideResult, .waitReturn, .waitReturn] :=
    .step [] [[.waitReturn], [.waitReturn]] .provideResult [] [.waitReturn, .waitReturn] h2
  have h0 : Interleaving (derivedTasks false 2)
      [.callTransform, .provideResult, .waitReturn, .waitReturn] :=
    .step [] [[.waitReturn], [.waitReturn]] .callTransform [.provideResult]
      [.provideResult, .waitReturn, .waitReturn] h1
  exact ⟨h0, after_transform_at_most_once false 2 _ h0⟩

/-! ## C10 — `renderFrames` totality and trailer -/

/-- The inner loop never grows the pending list. -/
theorem consumeBucket_length (endM : Int) (pending : List TLRecord)
    (pixels : List Nat) :
    (consumeBucket endM pending pixels).2.length ≤ pending.length := by
  induction pending generalizing pixels with
  | nil => simp [consumeBucket]
  | cons r rest ih =>
    rw [consumeBucket]
    split
    · simp
    · exact Nat.le_succ_of_le (ih (tlWrite pixels r))

/-- With a positive aggregation width the bucket's upper edge lies strictly
after the head record, so the inner loop consumes at least that record. -/
theorem consumeBucket_head (widthMillis : Int) (hw : 0 < widthMillis)
    (r : TLRecord) (rest : List TLRecord) (pixels : List Nat) :
    consumeBucket (r.unixMillis + widthMillis) (r :: rest) pixels =
      consumeBucket (r.unixMillis + widthMillis) rest (tlWrite pixels r) := by
  rw [consumeBucket, if_neg]
  omega

/-- Fuel independence of the outer loop: with a positive width, any fuel at
least the pending length computes the same frame list — the fuel bound is
never the reason the loop stops, which is the totality content of the
claim. -/
theorem renderLoop_fuel_free (widthMillis : Int) (hw : 0 < widthMillis) :
    ∀ (n : Nat) (pending : List TLRecord) (f1 f2 : Nat) (pixels : List Nat),
      pending.length ≤ n → pending.length ≤ f1 → pending.length ≤ f2 →
      renderLoop widthMillis f1 pending pixels =
        renderLoop widthMillis f2 pending pixels := by
  intro n
  induction n with
  | zero =>
    intro pending f1 f2 px hn _ _
    have hp : pending = [] := List.eq_nil_of_length_eq_zero (Nat.le_zero.mp hn)
    subst hp
    cases f1 <;> cases f2 <;> rfl
  | succ n ih =>
    intro pending f1 f2 px hn h1 h2
    match pending, f1, f2 with
    | [], f1, f2 => cases f1 <;> cases f2 <;> rfl
    | r :: rest, 0, _ => exact absurd h1 (by simp)
    | r :: rest, _ + 1, 0 => exact absurd h2 (by simp)
    | r :: rest, f1 + 1, f2 + 1 =>
      simp only [renderLoop]
      have hlen : (consumeBucket (r.unixMillis + widthMillis) (r :: rest) px).2.length
          ≤ rest.length := by
        rw [consumeBucket_head widthMillis hw]
        exact consumeBucket_length _ _ _
      have hrest : rest.length ≤ n := by
        simpa using Nat.succ_le_succ_iff.mp hn
      have hf1 : rest.length ≤ f1 := by
        simpa using Nat.succ_le_succ_iff.mp h1
      have hf2 : rest.length ≤ f2 := by
        simpa using Nat.succ_le_succ_iff.mp h2
      congr 1
      exact ih _ f1 f2 _ (le_trans hlen hrest) (le_trans hlen hf1) (le_trans hlen hf2)

/-- C10: `renderFrames` requires a non-empty record list.  On any non-empty
input (with the positive aggregation width the program uses) it is total —
the frame list is fuel-independent — and returns the bucket frames followed
by exactly 100 duplicate copies of the last of them; on the empty input the
trailer access `frames[len(frames)-1]` is out of bounds (`none` here, a
panic in Go). -/
theorem renderFrames_requires_nonempty (records : List TLRecord)
    (widthMillis : Int) (hw : 0 < widthMillis) :
    renderFrames [] widthMillis = none ∧
    (records ≠ [] →
      ∃ buckets last,
        renderFrames records widthMillis =
          some (buckets ++ List.replicate 100 last) ∧
        buckets ≠ [] ∧ buckets.getLast? = some last ∧
        ∀ fuel, records.length ≤ fuel →
          renderLoop widthMillis fuel records
            (List.replicate (timelapseDimension * timelapseDimension) 0) = buckets) := by
  constructor
  · rfl
  · intro hne
    match records, hne with
    | r :: rest, _ =>
      set px0 := initialTimelapsePixels with hpx0
      set buckets := renderLoop widthMillis (r :: rest).length (r :: rest) px0 with hb
      have hcons : ∃ t, buckets =
          (consumeBucket (r.unixMillis + widthMillis) (r :: rest) px0).1 :: t := by
        rw [hb]
        simp only [List.length_cons, renderLoop]
        exact ⟨_, rfl⟩
      obtain ⟨t, ht⟩ := hcons
      have hbne : buckets ≠ [] := by rw [ht]; simp
      obtain ⟨last, hlast⟩ : ∃ l, buckets.getLast? = some l := by
        cases hl : buckets.getLast? with
        | none => exact absurd (List.getLast?_eq_none_iff.mp hl) hbne
        | some l => exact ⟨l, rfl⟩
      refine ⟨buckets, last, ?_, hbne, hlast, ?_⟩
      · have hrf : renderFrames (r :: rest) widthMillis =
            match buckets.getLast? with
            | none => none
            | some l => some (buckets ++ List.replicate trailerFrames l) := rfl
        rw [hrf, hlast]
        rfl
      · intro fuel hfuel
        rw [hb]
        exact renderLoop_fuel_free widthMillis hw (r :: rest).length (r :: rest)
          fuel (r :: rest).length px0 le_rfl hfuel le_rfl

/-- C10 witness: one record, width 1 ms. -/
theorem renderFrames_requires_nonempty_witness :
    (0 : Int) < 1 ∧ ([⟨0, 0, 0, 5⟩] : List TLRecord) ≠ [] ∧
    (renderFrames [] 1 = none ∧
      ∃ buckets last,
        renderFrames [⟨0, 0, 0, 5⟩] 1 = some (buckets ++ List.replicate 100 last) ∧
        buckets ≠ [] ∧ buckets.getLast? = some last ∧
        ∀ fuel, ([⟨0, 0, 0, 5⟩] : List TLRecord).length ≤ fuel →
          renderLoop 1 fuel [⟨0, 0, 0, 5⟩]
            (List.replicate (timelapseDimension * timelapseDimension) 0) = buckets) := by
  refine ⟨by decide, by decide, ?_⟩
  have h := renderFrames_requires_nonempty [⟨0, 0, 0, 5⟩] 1 (by decide)
  exact ⟨h.1, h.2 (by decide)⟩

/-! ## C2 — persisted-store round trip -/

theorem decInt_cons (t : Int) (ts : List Int) : decInt (t :: ts) = some (t, ts) := rfl

theorem decNat_cons (n : Nat) (ts : List Int) :
    decNat (Int.ofNat n :: ts) = some (n, ts) := by
  simp [decNat, decInt]

theorem decNat_cast (n : Nat) (ts : List Int) :
    decNat ((n : Int) :: ts) = some (n, ts) := by
  simp [decNat, decInt]

/-- Decoding a counted sequence undoes encoding it, tail preserved. -/
theorem decCount_enc {α : Type} (dec : List Int → Option (α × List Int))
    (enc : α → List Int)
    (henc : ∀ (x : α) (rest : List Int), dec (enc x ++ rest) = some (x, rest)) :
    ∀ (l : List α) (rest : List Int),
      decCount dec l.length (l.flatMap enc ++ rest) = some (l, rest) := by
  intro l
  induction l with
  | nil => intro rest; simp [decCount]
  | cons x xs ih =>
    intro rest
    simp only [List.length_cons, List.flatMap_cons, List.append_assoc, decCount,
      henc, ih]

/-- Decoding a length-prefixed slice undoes encoding it, tail preserved. -/
theorem decList_enc {α : Type} (dec : List Int → Option (α × List Int))
    (enc : α → List Int)
    (henc : ∀ (x : α) (rest : List Int), dec (enc x ++ rest) = some (x, rest))
    (l : List α) (rest : List Int) :
    decList dec (encList enc l ++ rest) = some (l, rest) := by
  simp only [encList, List.cons_append, decList, decNat_cons]
  exact decCount_enc dec enc henc l rest

theorem decChar_enc (c : Char) (ts : List Int) :
    decChar (Int.ofNat c.toNat :: ts) = some (c, ts) := by
  simp [decChar, decNat_cast, Char.ofNat_toNat]

theorem decString_enc (s : String) (rest : List Int) :
    decString (encString s ++ rest) = some (s, rest) := by
  simp only [encString, decString,
    decList_enc decChar (fun c => [Int.ofNat c.toNat]) (fun c r => decChar_enc c r)]
  cases s
  rfl

theorem decRGBA_enc (c : GoRGBA) (rest : List Int) :
    decRGBA (encRGBA c ++ rest) = some (c, rest) := by
  simp [encRGBA, decRGBA, decNat_cast, List.cons_append]

theorem decEvent_enc (e : PixelEvent) (rest : List Int) :
    decEvent (encEvent e ++ rest) = some (e, rest) := by
  simp [encEvent, decEvent, decInt_cons, decNat_cast, List.cons_append]

theorem decChunk_enc (c : Chunk) (rest : List Int) :
    decChunk (encChunk c ++ rest) = some (c, rest) := by
  have hcell := decList_enc decEvent encEvent decEvent_enc
  have hrow := decList_enc (decList decEvent) (encList encEvent) hcell
  have hgrid := decList_enc (decList (decList decEvent))
    (encList (encList encEvent)) hrow
  simp only [encChunk, encNat, List.append_assoc, List.cons_append,
    List.nil_append, decChunk, decNat_cons, hgrid]

/-- gob round trip: decoding the encoded struct walk yields the same
`Dataset`, tail preserved. -/
theorem gobDecode_enc (d : Dataset) (rest : List Int) :
    gobDecodeDataset (gobEncodeDataset d ++ rest) = some (d, rest) := by
  have hpal := decList_enc decRGBA encRGBA decRGBA_enc
  have husers := decList_enc decString encString decString_enc
  have hchunks := decList_enc decChunk encChunk decChunk_enc
  simp only [gobEncodeDataset, encNat, encInt, List.append_assoc,
    List.cons_append, List.nil_append, gobDecodeDataset, decString_enc,
    decNat_cons, decInt_cons, hpal, husers, hchunks]

/-- C2: serializing a finalized `Dataset` with `SaveTo` and loading the
written file with `Load` yields a `Dataset` with identical palette, user-ID
list, chunk contents, epoch, start, and end (indeed identical in every
field). -/
theorem saveTo_load_roundtrip (d : Dataset) (file : String) (blob : List Int)
    (hv : d.version = datasetVersion)
    (hsave : saveTo d file = .ok blob) :
    ∃ d2, loadFile file blob = .ok d2 ∧
      d2.palette = d.palette ∧ d2.userIDs = d.userIDs ∧ d2.chunks = d.chunks ∧
      d2.epochMillis = d.epochMillis ∧ d2.startMillis = d.startMillis ∧
      d2.endMillis = d.endMillis := by
  refine ⟨d, ?_, rfl, rfl, rfl, rfl, rfl, rfl⟩
  unfold saveTo at hsave
  split at hsave
  · exact absurd hsave (by simp)
  · have hblob : blob = gobEncodeDataset d := by
      cases hsave
      rfl
    have hsuf : goHasSuffix file fileSuffix = true := by
      rename_i h
      simpa using h
    subst hblob
    unfold loadFile
    rw [if_neg (by simp [hsuf])]
    have hdec : gobDecodeDataset (gobEncodeDataset d) = some (d, []) := by
      have h := gobDecode_enc d []
      simpa using h
    rw [hdec]
    simp [hv]

/-- A minimal finalized dataset for the C2 witness. -/
def c2Dataset : Dataset :=
  { version := datasetVersion
    size := 2
    palette := [⟨255, 255, 255, 255⟩, ⟨229, 0, 0, 255⟩]
    epochMillis := 1491004800000
    startMillis := 1491004800000
    endMillis := 1491004800125
    chunkStride := 1
    userIDs := ["alice", "bob"]
    chunks := [{ width := 3, height := 3,
                 pixels := [[[⟨0, 0, 1⟩, ⟨125, 1, 0⟩], []], [[]]] }] }

/-- C2 witness: the round trip applied to a concrete dataset. -/
theorem saveTo_load_roundtrip_witness :
    c2Dataset.version = datasetVersion ∧
    saveTo c2Dataset "place_data_2017.gob.gz" = .ok (gobEncodeDataset c2Dataset) ∧
    ∃ d2, loadFile "place_data_2017.gob.gz" (gobEncodeDataset c2Dataset) = .ok d2 ∧
      d2.palette = c2Dataset.palette ∧ d2.userIDs = c2Dataset.userIDs ∧
      d2.chunks = c2Dataset.chunks ∧ d2.epochMillis = c2Dataset.epochMillis ∧
      d2.startMillis = c2Dataset.startMillis ∧ d2.endMillis = c2Dataset.endMillis := by
  have hsuf : goHasSuffix "place_data_2017.gob.gz" fileSuffix = true := by decide
  have hsave : saveTo c2Dataset "place_data_2017.gob.gz" =
      .ok (gobEncodeDataset c2Dataset) := by
    simp [saveTo, hsuf]
  refine ⟨rfl, hsave, ?_⟩
  exact saveTo_load_roundtrip c2Dataset "place_data_2017.gob.gz"
    (gobEncodeDataset c2Dataset) rfl hsave

/-! ## C6 — record → cell mapping (`add` vs `Dataset.At`) -/

theorem getD_set_self {α : Type} (l : List α) (i : Nat) (a d : α)
    (h : i < l.length) : (l.set i a).getD i d = a := by
  simp [List.getD, List.getElem?_set_self, h]

theorem getD_eq_getElem {α : Type} (l : List α) (i : Nat) (d : α)
    (h : i < l.length) : l.getD i d = l[i] := by
  simp [List.getD, List.getElem?_eq_getElem h]

set_option maxRecDepth 4000 in
/-- The `makeChunks` invariants: `stride*stride` chunks, each with a full
256×256 cell grid. -/
theorem initialDataset_shape (canvasSize : Nat) (epochMillis : Int) :
    (initialDataset canvasSize epochMillis).chunks.length =
      (initialDataset canvasSize epochMillis).chunkStride *
        (initialDataset canvasSize epochMillis).chunkStride ∧
    ∀ ch ∈ (initialDataset canvasSize epochMillis).chunks,
      ch.pixels.length = 256 ∧ ∀ row ∈ ch.pixels, row.length = 256 := by
  constructor
  · simp [initialDataset, makeChunks]
  · intro ch hch
    simp only [initialDataset, makeChunks, List.mem_map, List.mem_range] at hch
    obtain ⟨i, _, rfl⟩ := hch
    refine ⟨by simp, ?_⟩
    intro row hrow
    simp [List.eq_of_mem_replicate hrow]

/-- Core of the record → cell mapping: `add` on an in-canvas record appends
`addedEvent` to chunk `(y/256)*stride + x/256`, cell row `y%256`, column
`x%256`, which is the cell `Dataset.At(y, x)` reads (shape hypotheses are
the `makeChunks` invariants). -/
theorem add_at_core (pd : PartialDataset) (rec : RawRecord)
    (hx : rec.x < 256 * pd.ds.chunkStride) (hy : rec.y < 256 * pd.ds.chunkStride)
    (hlen : pd.ds.chunks.length = pd.ds.chunkStride * pd.ds.chunkStride)
    (hshape : ∀ ch ∈ pd.ds.chunks,
      ch.pixels.length = 256 ∧ ∀ row ∈ ch.pixels, row.length = 256) :
    (((pd.add rec).ds.chunks.getD
        (rec.y / 256 * pd.ds.chunkStride + rec.x / 256) ⟨0, 0, []⟩).cell
        (rec.y % 256) (rec.x % 256) =
      pd.ds.At rec.y rec.x ++
        [{ deltaMillis := rec.timestampMillis - pd.ds.epochMillis
           userIndex :=
             Int.ofNat (dictIndex (dictInsert pd.users rec.userHash) rec.userHash)
           colorIndex := dictIndex (dictInsert pd.colors rec.color) rec.color }]) ∧
    (pd.add rec).ds.At rec.y rec.x =
      pd.ds.At rec.y rec.x ++
        [{ deltaMillis := rec.timestampMillis - pd.ds.epochMillis
           userIndex :=
             Int.ofNat (dictIndex (dictInsert pd.users rec.userHash) rec.userHash)
           colorIndex := dictIndex (dictInsert pd.colors rec.color) rec.color }] := by
  have hstridepos : 0 < pd.ds.chunkStride := by
    rcases Nat.eq_zero_or_pos pd.ds.chunkStride with h | h
    · rw [h] at hx; omega
    · exact h
  have hyd : rec.y / 256 < pd.ds.chunkStride := by
    rw [Nat.div_lt_iff_lt_mul (by omega : 0 < 256)]
    omega
  have hxd : rec.x / 256 < pd.ds.chunkStride := by
    rw [Nat.div_lt_iff_lt_mul (by omega : 0 < 256)]
    omega
  have hidx : rec.y / 256 * pd.ds.chunkStride + rec.x / 256 <
      pd.ds.chunks.length := by
    rw [hlen]
    calc rec.y / 256 * pd.ds.chunkStride + rec.x / 256
        < rec.y / 256 * pd.ds.chunkStride + pd.ds.chunkStride := by omega
      _ = (rec.y / 256 + 1) * pd.ds.chunkStride := by ring
      _ ≤ pd.ds.chunkStride * pd.ds.chunkStride :=
          Nat.mul_le_mul_right _ (by omega)
  set idx := rec.y / 256 * pd.ds.chunkStride + rec.x / 256 with hidxdef
  set ch := pd.ds.chunks.getD idx ⟨0, 0, []⟩ with hch
  have hchmem : ch ∈ pd.ds.chunks := by
    rw [hch, getD_eq_getElem _ _ _ hidx]
    exact List.getElem_mem hidx
  have hpxlen : ch.pixels.length = 256 := (hshape ch hchmem).1
  have hrowlen : (ch.pixels.getD (rec.y % 256) []).length = 256 := by
    apply (hshape ch hchmem).2
    rw [getD_eq_getElem _ _ _ (by omega : rec.y % 256 < ch.pixels.length)]
    exact List.getElem_mem _
  have hymod : rec.y % 256 < 256 := Nat.mod_lt _ (by omega)
  have hxmod : rec.x % 256 < 256 := Nat.mod_lt _ (by omega)
  have hAt : pd.ds.At rec.y rec.x = ch.cell (rec.y % 256) (rec.x % 256) := rfl
  have hadd : (pd.add rec).ds.chunks =
      pd.ds.chunks.set idx
        (ch.setCell (rec.y % 256) (rec.x % 256)
          (ch.cell (rec.y % 256) (rec.x % 256) ++
            [{ deltaMillis := rec.timestampMillis - pd.ds.epochMillis
               userIndex := Int.ofNat
                 (dictIndex (dictInsert pd.users rec.userHash) rec.userHash)
               colorIndex := dictIndex (dictInsert pd.colors rec.color) rec.color }])) :=
    rfl
  have hstride2 : (pd.add rec).ds.chunkStride = pd.ds.chunkStride := rfl
  have hgetNew : (pd.add rec).ds.chunks.getD idx ⟨0, 0, []⟩ =
      ch.setCell (rec.y % 256) (rec.x % 256)
        (ch.cell (rec.y % 256) (rec.x % 256) ++
          [{ deltaMillis := rec.timestampMillis - pd.ds.epochMillis
             userIndex := Int.ofNat
               (dictIndex (dictInsert pd.users rec.userHash) rec.userHash)
             colorIndex := dictIndex (dictInsert pd.colors rec.color) rec.color }]) := by
    rw [hadd]
    exact getD_set_self _ _ _ _ hidx
  have hcellNew : ∀ v : List PixelEvent,
      (ch.setCell (rec.y % 256) (rec.x % 256) v).cell (rec.y % 256) (rec.x % 256) = v := by
    intro v
    unfold Chunk.setCell Chunk.cell
    simp only
    rw [getD_set_self _ _ _ _ (by omega : rec.y % 256 < ch.pixels.length)]
    rw [getD_set_self _ _ _ _ (by omega : rec.x % 256 < (ch.pixels.getD (rec.y % 256) []).length)]
  constructor
  · rw [hgetNew, hcellNew, hAt]
  · show ((pd.add rec).ds.chunks.getD
        (rec.y / 256 * (pd.add rec).ds.chunkStride + rec.x / 256) ⟨0, 0, []⟩).cell
        (rec.y % 256) (rec.x % 256) = _
    rw [hstride2, ← hidxdef, hgetNew, hcellNew, hAt]

/-- C6: ingesting a record with coordinates in `[0, 256*ChunkStride)²`
appends its pixel event to the chunk at grid position
`(x div 256, y div 256)` — chunk index `(y div 256)*ChunkStride + (x div 256)`
— at in-chunk cell column `x mod 256`, row `y mod 256`, which is exactly the
cell returned by `Dataset.At(y, x)`.  The shape hypotheses are the
`makeChunks` invariants: a `stride*stride` chunk list of full 256×256
grids. -/
theorem add_appends_at_cell (pd : PartialDataset) (rec : RawRecord)
    (hx : rec.x < 256 * pd.ds.chunkStride) (hy : rec.y < 256 * pd.ds.chunkStride)
    (hlen : pd.ds.chunks.length = pd.ds.chunkStride * pd.ds.chunkStride)
    (hshape : ∀ ch ∈ pd.ds.chunks,
      ch.pixels.length = 256 ∧ ∀ row ∈ ch.pixels, row.length = 256) :
    (((pd.add rec).ds.chunks.getD
        (rec.y / 256 * pd.ds.chunkStride + rec.x / 256) ⟨0, 0, []⟩).cell
        (rec.y % 256) (rec.x % 256) =
      pd.ds.At rec.y rec.x ++ [addedEvent pd rec]) ∧
    (pd.add rec).ds.At rec.y rec.x =
      pd.ds.At rec.y rec.x ++ [addedEvent pd rec] :=
  add_at_core pd rec hx hy hlen hshape

/-- C6 witness: a concrete record at (300, 77) on a stride-2 canvas. -/
theorem add_appends_at_cell_witness :
    (77 : Nat) < 256 * 2 ∧ (300 : Nat) < 256 * 2 ∧
    ∀ pd : PartialDataset,
      pd = { ds := initialDataset 400 0, users := [], colors := [] } →
      (pd.add { timestampMillis := 10, userHash := "u", x := 77, y := 300,
                color := ⟨1, 2, 3, 255⟩ }).ds.At 300 77 =
        pd.ds.At 300 77 ++
          [{ deltaMillis := 10, userIndex := 0, colorIndex := 0 }] := by
  refine ⟨by decide, by decide, ?_⟩
  intro pd hpd
  subst hpd
  have h := add_appends_at_cell
    { ds := initialDataset 400 0, users := [], colors := [] }
    { timestampMillis := 10, userHash := "u", x := 77, y := 300, color := ⟨1, 2, 3, 255⟩ }
    (by decide) (by decide) (initialDataset_shape 400 0).1
    (initialDataset_shape 400 0).2
  exact h.2

/-! ## C8 — palette: first-seen order, overflow fatal -/

/-- The incremental dictionary fold equals the first-seen-order list of the
keys not already present. -/
theorem foldl_dictInsert_eq_firstSeen {α : Type} [DecidableEq α] :
    ∀ (l acc : List α),
      l.foldl dictInsert acc = acc ++ (firstSeen l).filter fun y => y ∉ acc := by
  intro l
  induction l with
  | nil => intro acc; simp [firstSeen]
  | cons x xs ih =>
    intro acc
    by_cases hx : x ∈ acc
    · have h2 : (firstSeen (x :: xs)).filter (fun y => y ∉ acc) =
          (firstSeen xs).filter fun y => y ∉ acc := by
        simp only [firstSeen, List.filter_cons, List.filter_filter]
        rw [if_neg (by simp [hx])]
        apply List.filter_congr
        intro a _
        by_cases haa : a ∈ acc
        · simp [haa]
        · have hax : a ≠ x := fun h => haa (h ▸ hx)
          simp [haa, hax]
      simp only [List.foldl_cons, h2, ← ih]
      congr 1
      simp [dictInsert, hx]
    · have h2 : (firstSeen (x :: xs)).filter (fun y => y ∉ acc) =
          x :: ((firstSeen xs).filter fun y => y ∉ acc ++ [x]) := by
        simp only [firstSeen, List.filter_cons, List.filter_filter]
        rw [if_pos (by simp [hx])]
        congr 1
        apply List.filter_congr
        intro a _
        by_cases hax : a = x <;> by_cases haa : a ∈ acc <;>
          simp [hax, haa, List.mem_append]
      rw [List.foldl_cons, ih, h2]
      have h1 : dictInsert acc x = acc ++ [x] := by simp [dictInsert, hx]
      rw [h1]
      simp

/-- The builder's color dictionary after folding `add` is the `dictInsert`
fold of the records' colors. -/
theorem foldl_add_colors (records : List RawRecord) (pd : PartialDataset) :
    (records.foldl PartialDataset.add pd).colors =
      records.foldl (fun acc r => dictInsert acc r.color) pd.colors := by
  induction records generalizing pd with
  | nil => rfl
  | cons r rest ih =>
    simp only [List.foldl_cons]
    rw [ih]
    rfl

/-- The color fold over records is the dictionary fold over their colors. -/
theorem foldl_dictInsert_map (records : List RawRecord) (acc : List GoRGBA) :
    records.foldl (fun acc r => dictInsert acc r.color) acc =
      (records.map fun r => r.color).foldl dictInsert acc := by
  induction records generalizing acc with
  | nil => rfl
  | cons r rest ih => simp only [List.foldl_cons, List.map_cons, ih]

/-- C8: during ingestion each distinct color is assigned the next palette
index in first-seen order — a produced `Dataset` has exactly the first-seen
distinct-color list (of at most 256 entries) as its palette — and more than
256 distinct colors is fatal: `finalize` calls `glog.Fatalf` and ingestion
returns no `Dataset`. -/
theorem palette_first_seen_and_overflow_fatal (canvasSize : Nat)
    (epochMillis : Int) (records : List RawRecord) :
    (∀ ds, ingestRecords canvasSize epochMillis records = some ds →
      ds.palette = firstSeen (records.map fun r => r.color) ∧
      (firstSeen (records.map fun r => r.color)).length ≤ 256) ∧
    (256 < (firstSeen (records.map fun r => r.color)).length →
      ingestRecords canvasSize epochMillis records = none) := by
  have hcolors :
      (records.foldl PartialDataset.add
        { ds := initialDataset canvasSize epochMillis, users := [], colors := [] }).colors =
        firstSeen (records.map fun r => r.color) := by
    rw [foldl_add_colors, foldl_dictInsert_map, foldl_dictInsert_eq_firstSeen]
    simp
  constructor
  · intro ds hds
    unfold ingestRecords PartialDataset.finalize at hds
    rw [hcolors] at hds
    split at hds
    · exact absurd hds (by simp)
    · simp only [Option.some.injEq] at hds
      subst hds
      constructor
      · rfl
      · omega
  · intro hover
    unfold ingestRecords PartialDataset.finalize
    rw [hcolors]
    rw [if_pos hover]

/-- 257 records with 257 distinct colors, all at the origin. -/
def c8Records : List RawRecord :=
  (List.range 257).map fun i =>
    { timestampMillis := 0, userHash := "u", x := 0, y := 0,
      color := ⟨i, 0, 0, 255⟩ }

set_option maxRecDepth 4000 in
/-- C8 witness: the overflow arm on a concrete 257-color run. -/
theorem palette_first_seen_and_overflow_fatal_witness :
    256 < (firstSeen (c8Records.map fun r => r.color)).length ∧
    ingestRecords 1001 1491004800000 c8Records = none := by
  have hover : 256 < (firstSeen (c8Records.map fun r => r.color)).length := by decide
  exact ⟨hover,
    (palette_first_seen_and_overflow_fatal 1001 1491004800000 c8Records).2 hover⟩

/-! ## C5 — finalize invariants: sorted cells, start, end -/

theorem getD_set_ne {α : Type} (l : List α) (i j : Nat) (a d : α) (h : i ≠ j) :
    (l.set i a).getD j d = l.getD j d := by
  simp [List.getD, List.getElem?_set_ne h]

/-- One `add` either leaves a cell unchanged or appends exactly the new
event to it. -/
theorem add_cellAt_cases (pd : PartialDataset) (rec : RawRecord) (i r c : Nat) :
    cellAt (pd.add rec).ds.chunks i r c = cellAt pd.ds.chunks i r c ∨
    cellAt (pd.add rec).ds.chunks i r c =
      cellAt pd.ds.chunks i r c ++ [addedEvent pd rec] := by
  set idx := rec.y / 256 * pd.ds.chunkStride + rec.x / 256 with hidxdef
  set ch := pd.ds.chunks.getD idx ⟨0, 0, []⟩ with hch
  set v := ch.cell (rec.y % 256) (rec.x % 256) ++ [addedEvent pd rec] with hv
  have hchunks : (pd.add rec).ds.chunks =
      pd.ds.chunks.set idx (ch.setCell (rec.y % 256) (rec.x % 256) v) := rfl
  by_cases hi : idx = i
  · subst hi
    by_cases hlen : idx < pd.ds.chunks.length
    · have hget : cellAt (pd.add rec).ds.chunks idx r c =
          (ch.setCell (rec.y % 256) (rec.x % 256) v).cell r c := by
        unfold cellAt
        rw [hchunks, getD_set_self _ _ _ _ hlen]
      rw [hget]
      unfold Chunk.setCell Chunk.cell
      simp only
      by_cases hr : rec.y % 256 = r
      · subst hr
        by_cases hrlen : rec.y % 256 < ch.pixels.length
        · rw [getD_set_self _ _ _ _ hrlen]
          by_cases hc : rec.x % 256 = c
          · subst hc
            by_cases hclen : rec.x % 256 < (ch.pixels.getD (rec.y % 256) []).length
            · rw [getD_set_self _ _ _ _ hclen]
              right
              rfl
            · rw [List.set_eq_of_length_le (by omega)]
              left
              rfl
          · rw [getD_set_ne _ _ _ _ _ hc]
            left
            rfl
        · rw [List.set_eq_of_length_le (by omega)]
          left
          rfl
      · rw [getD_set_ne _ _ _ _ _ hr]
        left
        rfl
    · left
      unfold cellAt
      rw [hchunks, List.set_eq_of_length_le (by omega)]
  · left
    unfold cellAt
    rw [hchunks, getD_set_ne _ _ _ _ _ hi]

/-- Cell membership is preserved by further ingestion: cells only grow. -/
theorem mem_cellAt_foldl_add (records : List RawRecord) (pd : PartialDataset)
    (i r c : Nat) (e : PixelEvent) (he : e ∈ cellAt pd.ds.chunks i r c) :
    e ∈ cellAt (records.foldl PartialDataset.add pd).ds.chunks i r c := by
  induction records generalizing pd with
  | nil => exact he
  | cons rec rest ih =>
    apply ih
    rcases add_cellAt_cases pd rec i r c with h | h
    · rw [h]; exact he
    · rw [h]; exact List.mem_append_left _ he

/-- Every chunk of the fresh grid has the full replicate pixel grid. -/
theorem initial_pixels (canvasSize : Nat) (epochMillis : Int) (ch : Chunk)
    (h : ch ∈ (initialDataset canvasSize epochMillis).chunks) :
    ch.pixels = List.replicate 256 (List.replicate 256 ([] : List PixelEvent)) := by
  simp only [initialDataset, makeChunks, List.mem_map, List.mem_range] at h
  obtain ⟨j, _, hj⟩ := h
  rw [← hj]

/-- Both defaults of a fresh replicate grid read back the empty cell. -/
theorem replicate_grid_getD (r c : Nat) :
    ((List.replicate 256 (List.replicate 256 ([] : List PixelEvent))).getD r []).getD
      c [] = [] := by
  by_cases hr : r < 256
  · have h1 : (List.replicate 256 (List.replicate 256 ([] : List PixelEvent))).getD r []
        = List.replicate 256 [] := by
      rw [getD_eq_getElem _ _ _ (by rw [List.length_replicate]; exact hr)]
      exact List.getElem_replicate _ _
    rw [h1]
    by_cases hc : c < 256
    · rw [getD_eq_getElem _ _ _ (by rw [List.length_replicate]; exact hc)]
      exact List.getElem_replicate _ _
    · exact List.getD_eq_default _ _ (by rw [List.length_replicate]; omega)
  · rw [List.getD_eq_default (List.replicate 256 (List.replicate 256 [])) []
      (by rw [List.length_replicate]; omega)]
    rfl

/-- Every cell of the freshly allocated chunk grid is empty. -/
theorem cellAt_initial (canvasSize : Nat) (epochMillis : Int) (i r c : Nat) :
    cellAt (initialDataset canvasSize epochMillis).chunks i r c = [] := by
  unfold cellAt Chunk.cell
  by_cases hi : i < (initialDataset canvasSize epochMillis).chunks.length
  · rw [getD_eq_getElem _ _ _ hi,
      initial_pixels canvasSize epochMillis _ (List.getElem_mem hi)]
    exact replicate_grid_getD r c
  · rw [List.getD_eq_default (initialDataset canvasSize epochMillis).chunks
      ⟨0, 0, []⟩ (by omega)]
    rfl

/-- One sort of one row of cells, through `getD`. -/
theorem row_sort_getD (row : List (List PixelEvent)) (c : Nat) :
    (row.map fun cell => cell.mergeSort eventLE).getD c [] =
      (row.getD c []).mergeSort eventLE := by
  have h := @List.getD_map _ _ row ([] : List PixelEvent) c
    (fun cell => cell.mergeSort eventLE)
  simpa [List.mergeSort_nil] using h

/-- One sort of one pixel grid, through `getD`. -/
theorem grid_sort_getD (pixels : List (List (List PixelEvent))) (r c : Nat) :
    (((pixels.map fun row => row.map fun cell => cell.mergeSort eventLE).getD r
        []).getD c []) = ((pixels.getD r []).getD c []).mergeSort eventLE := by
  have h := @List.getD_map _ _ pixels ([] : List (List PixelEvent)) r
    (fun row => row.map fun cell => cell.mergeSort eventLE)
  simp only [List.map_nil] at h
  rw [h]
  exact row_sort_getD _ c

/-- Sorting the chunks sorts each cell in place. -/
theorem cellAt_sortChunks (cs : List Chunk) (i r c : Nat) :
    cellAt (sortChunks cs) i r c = (cellAt cs i r c).mergeSort eventLE := by
  by_cases hi : i < cs.length
  · have h1 : (sortChunks cs).getD i ⟨0, 0, []⟩ =
        { width := cs[i].width
          height := cs[i].height
          pixels := List.map (fun row => row.map fun cell => cell.mergeSort eventLE)
            cs[i].pixels } := by
      unfold sortChunks
      rw [getD_eq_getElem _ _ _ (by simpa using hi), List.getElem_map]
    have h2 : cs.getD i ⟨0, 0, []⟩ = cs[i] := getD_eq_getElem _ _ _ hi
    unfold cellAt Chunk.cell
    rw [h1, h2]
    exact grid_sort_getD _ r c
  · have h1 : (sortChunks cs).getD i ⟨0, 0, []⟩ = ⟨0, 0, []⟩ :=
      List.getD_eq_default _ _ (by simpa [sortChunks] using Nat.le_of_not_lt hi)
    have h2 : cs.getD i ⟨0, 0, []⟩ = ⟨0, 0, []⟩ :=
      List.getD_eq_default _ _ (Nat.le_of_not_lt hi)
    unfold cellAt Chunk.cell
    rw [h1, h2]
    simp [List.mergeSort_nil]

/-- The cell list of the sorted chunks is the cell-wise sort. -/
theorem allCells_sortChunks (cs : List Chunk) :
    allCells (sortChunks cs) =
      (allCells cs).map fun cell => cell.mergeSort eventLE := by
  unfold allCells sortChunks
  rw [List.map_flatten, List.map_map, List.map_map]
  congr 1
  apply List.map_congr_left
  intro ch _
  simp only [Function.comp]
  rw [← List.map_flatten]

/-- An event reached through `cellAt` lives in an enumerated cell. -/
theorem mem_allCells_of_cellAt (chunks : List Chunk) (i r c : Nat)
    (e : PixelEvent) (he : e ∈ cellAt chunks i r c) :
    ∃ cell ∈ allCells chunks, e ∈ cell := by
  unfold cellAt Chunk.cell at he
  by_cases hi : i < chunks.length
  · rw [getD_eq_getElem _ _ _ hi] at he
    by_cases hr : r < chunks[i].pixels.length
    · rw [getD_eq_getElem _ _ _ hr] at he
      by_cases hc : c < chunks[i].pixels[r].length
      · rw [getD_eq_getElem _ _ _ hc] at he
        refine ⟨chunks[i].pixels[r][c], ?_, he⟩
        unfold allCells
        rw [List.mem_flatten]
        refine ⟨chunks[i].pixels.flatten, ?_, ?_⟩
        · exact List.mem_map_of_mem _ (List.getElem_mem hi)
        · rw [List.mem_flatten]
          exact ⟨chunks[i].pixels[r], List.getElem_mem hr, List.getElem_mem hc⟩
      · rw [List.getD_eq_default _ _ (Nat.le_of_not_lt hc)] at he
        cases he
    · rw [List.getD_eq_default _ _ (Nat.le_of_not_lt hr)] at he
      cases he
  · rw [List.getD_eq_default _ _ (Nat.le_of_not_lt hi)] at he
    cases he

/-- The first-event fold is the flat fold of `minStep` over all cells. -/
theorem firstDelta_eq_foldl (chunks : List Chunk) :
    firstDelta chunks = (allCells chunks).foldl minStep maxInt32 := by
  unfold firstDelta allCells
  rw [List.foldl_flatten, List.foldl_map]
  congr 1
  funext acc ch
  rw [List.foldl_flatten]

/-- The head of a sorted cell bounds its members. -/
theorem head_le_of_sorted (cell : List PixelEvent)
    (hs : cell.Pairwise fun a b => a.deltaMillis ≤ b.deltaMillis)
    (h : PixelEvent) (hh : cell.head? = some h) (e : PixelEvent) (he : e ∈ cell) :
    h.deltaMillis ≤ e.deltaMillis := by
  cases cell with
  | nil => cases he
  | cons x t =>
    cases hh
    rcases List.mem_cons.mp he with rfl | ht
    · exact le_refl _
    · exact (List.pairwise_cons.mp hs).1 e ht

/-- The first-event fold never rises above its initial accumulator. -/
theorem foldl_minStep_le_init (cells : List (List PixelEvent)) (init : Int) :
    cells.foldl minStep init ≤ init := by
  induction cells generalizing init with
  | nil => simp
  | cons cell rest ih =>
    refine le_trans (ih (minStep init cell)) ?_
    unfold minStep
    cases cell.head? with
    | none => exact le_refl _
    | some e =>
      dsimp only
      split <;> omega

/-- Over sorted cells, the first-event fold bounds every event's delta. -/
theorem foldl_minStep_le (cells : List (List PixelEvent)) (init : Int)
    (hsorted : ∀ cell ∈ cells, cell.Pairwise fun a b => a.deltaMillis ≤ b.deltaMillis) :
    ∀ cell ∈ cells, ∀ e ∈ cell, cells.foldl minStep init ≤ e.deltaMillis := by
  induction cells generalizing init with
  | nil => intro cell h; cases h
  | cons c0 rest ih =>
    intro cell hcell e he
    rcases List.mem_cons.mp hcell with rfl | hmem
    · rw [List.foldl_cons]
      refine le_trans (foldl_minStep_le_init rest _) ?_
      cases hh : cell.head? with
      | none =>
        rw [List.head?_eq_none_iff] at hh
        subst hh
        cases he
      | some h =>
        have hle := head_le_of_sorted cell (hsorted cell (List.mem_cons_self _ _))
          h hh e he
        unfold minStep
        rw [hh]
        dsimp only
        split <;> omega
    · exact ih (minStep init c0)
        (fun cl hcl => hsorted cl (List.mem_cons_of_mem _ hcl)) cell hmem e he

/-- The first-event fold is its initial value or some cell's head delta. -/
theorem foldl_minStep_attained (cells : List (List PixelEvent)) (init : Int) :
    cells.foldl minStep init = init ∨
    ∃ cell ∈ cells, ∃ e ∈ cell, cells.foldl minStep init = e.deltaMillis := by
  induction cells generalizing init with
  | nil => left; rfl
  | cons c0 rest ih =>
    rw [List.foldl_cons]
    rcases ih (minStep init c0) with h | ⟨cell, hc, e, he, heq⟩
    · rw [h]
      cases hh : c0.head? with
      | none =>
        left
        unfold minStep
        rw [hh]
      | some hd =>
        by_cases hlt : hd.deltaMillis < init
        · right
          refine ⟨c0, List.mem_cons_self _ _, hd, List.mem_of_mem_head? hh, ?_⟩
          unfold minStep
          rw [hh]
          simp [hlt]
        · left
          unfold minStep
          rw [hh]
          simp [hlt]
    · right
      exact ⟨cell, List.mem_cons_of_mem _ hc, e, he, heq⟩

/-- Ingestion never changes the epoch. -/
theorem foldl_add_epoch (records : List RawRecord) (pd : PartialDataset) :
    (records.foldl PartialDataset.add pd).ds.epochMillis = pd.ds.epochMillis := by
  induction records generalizing pd with
  | nil => rfl
  | cons r rest ih =>
    rw [List.foldl_cons, ih]
    rfl

/-- The builder's end time after ingestion is the running maximum of the
record timestamps (the `if rec.Timestamp.After(d.End)` update). -/
theorem foldl_add_endMillis (records : List RawRecord) (pd : PartialDataset) :
    (records.foldl PartialDataset.add pd).ds.endMillis =
      records.foldl
        (fun acc r => if acc < r.timestampMillis then r.timestampMillis else acc)
        pd.ds.endMillis := by
  induction records generalizing pd with
  | nil => rfl
  | cons r rest ih =>
    rw [List.foldl_cons, List.foldl_cons, ih]
    rfl

/-- The running-maximum fold never drops below its initial value. -/
theorem foldl_max_ge_init (records : List RawRecord) (init : Int) :
    init ≤ records.foldl
      (fun acc r => if acc < r.timestampMillis then r.timestampMillis else acc)
      init := by
  induction records generalizing init with
  | nil => simp
  | cons r rest ih =>
    rw [List.foldl_cons]
    refine le_trans ?_ (ih _)
    split <;> omega

/-- The running-maximum fold bounds every record timestamp. -/
theorem foldl_max_ge (records : List RawRecord) (init : Int) :
    ∀ r ∈ records, r.timestampMillis ≤ records.foldl
      (fun acc r => if acc < r.timestampMillis then r.timestampMillis else acc)
      init := by
  induction records generalizing init with
  | nil => intro r h; cases h
  | cons r0 rest ih =>
    intro r hr
    rw [List.foldl_cons]
    rcases List.mem_cons.mp hr with rfl | hmem
    · refine le_trans ?_ (foldl_max_ge_init rest _)
      split <;> omega
    · exact ih _ r hmem

/-- The running-maximum fold is its initial value or some record's
timestamp. -/
theorem foldl_max_attained (records : List RawRecord) (init : Int) :
    records.foldl
        (fun acc r => if acc < r.timestampMillis then r.timestampMillis else acc)
        init = init ∨
    ∃ r ∈ records, records.foldl
        (fun acc r => if acc < r.timestampMillis then r.timestampMillis else acc)
        init = r.timestampMillis := by
  induction records generalizing init with
  | nil => left; rfl
  | cons r0 rest ih =>
    rw [List.foldl_cons]
    rcases ih (if init < r0.timestampMillis then r0.timestampMillis else init) with
      h | ⟨r, hr, heq⟩
    · rw [h]
      by_cases hlt : init < r0.timestampMillis
      · right
        exact ⟨r0, List.mem_cons_self _ _, by simp [hlt]⟩
      · left
        simp [hlt]
    · right
      exact ⟨r, List.mem_cons_of_mem _ hr, heq⟩

/-- C5: after `finalize` completes (for a run that ingested at least one
event, all coordinates in canvas range, all timestamps after the Go zero
time, all deltas within the `int32` range the encoding stores), every
cell's event sequence in the produced Index is sorted ascending by
delta-time, `start` equals the epoch plus the earliest event delta-time
across all cells, and `end` equals the timestamp of the latest record
observed. -/
theorem finalize_invariants (canvasSize : Nat) (epochMillis : Int)
    (records : List RawRecord)
    (hne : records ≠ [])
    (hbounds : ∀ r ∈ records,
      r.x < 256 * ((canvasSize + 255) / 256) ∧
      r.y < 256 * ((canvasSize + 255) / 256))
    (htime : ∀ r ∈ records, goZeroTimeMillis < r.timestampMillis)
    (hdelta : ∀ r ∈ records, r.timestampMillis - epochMillis ≤ maxInt32)
    (ds : Dataset)
    (hds : ingestRecords canvasSize epochMillis records = some ds) :
    (∀ cell ∈ allCells ds.chunks,
        cell.Pairwise fun a b => a.deltaMillis ≤ b.deltaMillis) ∧
    (∃ cell ∈ allCells ds.chunks, ∃ e ∈ cell,
        ds.startMillis = ds.epochMillis + e.deltaMillis ∧
        ∀ cell2 ∈ allCells ds.chunks, ∀ e2 ∈ cell2,
          e.deltaMillis ≤ e2.deltaMillis) ∧
    (∃ r ∈ records, ds.endMillis = r.timestampMillis ∧
        ∀ r2 ∈ records, r2.timestampMillis ≤ r.timestampMillis) := by
  unfold ingestRecords PartialDataset.finalize at hds
  set pd0 : PartialDataset :=
    { ds := initialDataset canvasSize epochMillis, users := [], colors := [] }
    with hpd0
  set bd := records.foldl PartialDataset.add pd0 with hbd
  split at hds
  · exact absurd hds (by simp)
  · have hds' :
        ({ bd.ds with
            userIDs := bd.users
            palette := bd.colors
            chunks := sortChunks bd.ds.chunks
            startMillis := bd.ds.epochMillis + firstDelta (sortChunks bd.ds.chunks) }
          : Dataset) = ds := by
      simpa using hds
    subst hds'
    -- sortedness of every cell (claim part a)
    have htrans : ∀ (a b c : PixelEvent), eventLE a b → eventLE b c → eventLE a c := by
      intro a b c hab hbc
      simp only [eventLE, decide_eq_true_eq] at hab hbc ⊢
      omega
    have htotal : ∀ (a b : PixelEvent), eventLE a b || eventLE b a := by
      intro a b
      simp only [eventLE, Bool.or_eq_true, decide_eq_true_eq]
      omega
    have hsorted : ∀ cell ∈ allCells (sortChunks bd.ds.chunks),
        cell.Pairwise fun a b => a.deltaMillis ≤ b.deltaMillis := by
      intro cell hcell
      rw [allCells_sortChunks] at hcell
      rcases List.mem_map.mp hcell with ⟨c0, _, rfl⟩
      have h := @List.sorted_mergeSort _ eventLE htrans htotal c0
      refine h.imp ?_
      intro a b hab
      simpa [eventLE] using hab
    -- the first record's event survives into the final chunks
    obtain ⟨r0, rest, hrec⟩ := List.exists_cons_of_ne_nil hne
    have hr0mem : r0 ∈ records := by rw [hrec]; exact List.mem_cons_self _ _
    have hx0 : r0.x < 256 * pd0.ds.chunkStride := (hbounds r0 hr0mem).1
    have hy0 : r0.y < 256 * pd0.ds.chunkStride := (hbounds r0 hr0mem).2
    have hshape := initialDataset_shape canvasSize epochMillis
    have hcore := (add_at_core pd0 r0 hx0 hy0 hshape.1 hshape.2).1
    rw [show pd0.ds.At r0.y r0.x = [] from
      cellAt_initial canvasSize epochMillis _ _ _] at hcore
    have hmem1 : addedEvent pd0 r0 ∈ cellAt (pd0.add r0).ds.chunks
        (r0.y / 256 * pd0.ds.chunkStride + r0.x / 256) (r0.y % 256) (r0.x % 256) := by
      show addedEvent pd0 r0 ∈
        ((pd0.add r0).ds.chunks.getD
          (r0.y / 256 * pd0.ds.chunkStride + r0.x / 256) ⟨0, 0, []⟩).cell
          (r0.y % 256) (r0.x % 256)
      rw [hcore]
      exact List.mem_append_right _ (List.mem_cons_self _ _)
    have hbd2 : bd = rest.foldl PartialDataset.add (pd0.add r0) := by
      rw [hbd, hrec]
      rfl
    have hmem2 : addedEvent pd0 r0 ∈ cellAt bd.ds.chunks
        (r0.y / 256 * pd0.ds.chunkStride + r0.x / 256) (r0.y % 256) (r0.x % 256) := by
      rw [hbd2]
      exact mem_cellAt_foldl_add rest (pd0.add r0) _ _ _ _ hmem1
    have hmem3 : addedEvent pd0 r0 ∈ cellAt (sortChunks bd.ds.chunks)
        (r0.y / 256 * pd0.ds.chunkStride + r0.x / 256) (r0.y % 256) (r0.x % 256) := by
      rw [cellAt_sortChunks, List.mem_mergeSort]
      exact hmem2
    obtain ⟨cell0, hcell0, hmem4⟩ := mem_allCells_of_cellAt _ _ _ _ _ hmem3
    have hdelta0 : (addedEvent pd0 r0).deltaMillis =
        r0.timestampMillis - epochMillis := rfl
    -- epoch is preserved by ingestion
    have hepoch : bd.ds.epochMillis = epochMillis := by
      rw [hbd, foldl_add_epoch]
      rfl
    refine ⟨hsorted, ?_, ?_⟩
    · -- start = epoch + least delta
      have hfd := firstDelta_eq_foldl (sortChunks bd.ds.chunks)
      rcases foldl_minStep_attained (allCells (sortChunks bd.ds.chunks)) maxInt32 with
        hattain | ⟨cell, hcellmem, e, hemem, heq⟩
      · have h1 := foldl_minStep_le (allCells (sortChunks bd.ds.chunks)) maxInt32
          hsorted cell0 hcell0 _ hmem4
        have h2 : (addedEvent pd0 r0).deltaMillis ≤ maxInt32 := by
          rw [hdelta0]
          exact hdelta r0 hr0mem
        have heq0 : (allCells (sortChunks bd.ds.chunks)).foldl minStep maxInt32 =
            (addedEvent pd0 r0).deltaMillis := by omega
        refine ⟨cell0, hcell0, addedEvent pd0 r0, hmem4, ?_, ?_⟩
        · show bd.ds.epochMillis + firstDelta (sortChunks bd.ds.chunks) =
            bd.ds.epochMillis + (addedEvent pd0 r0).deltaMillis
          rw [hfd, heq0]
        · intro cell2 hc2 e2 he2
          have := foldl_minStep_le (allCells (sortChunks bd.ds.chunks)) maxInt32
            hsorted cell2 hc2 e2 he2
          omega
      · refine ⟨cell, hcellmem, e, hemem, ?_, ?_⟩
        · show bd.ds.epochMillis + firstDelta (sortChunks bd.ds.chunks) =
            bd.ds.epochMillis + e.deltaMillis
          rw [hfd, heq]
        · intro cell2 hc2 e2 he2
          have := foldl_minStep_le (allCells (sortChunks bd.ds.chunks)) maxInt32
            hsorted cell2 hc2 e2 he2
          omega
    · -- end = latest record timestamp
      have hend : bd.ds.endMillis = records.foldl
          (fun acc r => if acc < r.timestampMillis then r.timestampMillis else acc)
          goZeroTimeMillis := by
        rw [hbd, foldl_add_endMillis]
        rfl
      rcases foldl_max_attained records goZeroTimeMillis with h | ⟨r, hr, heq⟩
      · have hge := foldl_max_ge records goZeroTimeMillis r0 hr0mem
        have hgt := htime r0 hr0mem
        rw [h] at hge
        omega
      · refine ⟨r, hr, ?_, ?_⟩
        · show bd.ds.endMillis = r.timestampMillis
          rw [hend, heq]
        · intro r2 hr2
          have := foldl_max_ge records goZeroTimeMillis r2 hr2
          rw [heq] at this
          exact this

/-- A one-record run for the C5 witness. -/
def c5Records : List RawRecord :=
  [{ timestampMillis := 125, userHash := "u", x := 1, y := 2, color := ⟨9, 9, 9, 255⟩ }]

/-- C5 witness: the finalize invariants on a concrete one-record run. -/
theorem finalize_invariants_witness :
    c5Records ≠ [] ∧
    (∀ r ∈ c5Records,
      r.x < 256 * ((4 + 255) / 256) ∧ r.y < 256 * ((4 + 255) / 256)) ∧
    (∀ r ∈ c5Records, goZeroTimeMillis < r.timestampMillis) ∧
    (∀ r ∈ c5Records, r.timestampMillis - 0 ≤ maxInt32) ∧
    ∃ ds, ingestRecords 4 0 c5Records = some ds ∧
      ((∀ cell ∈ allCells ds.chunks,
          cell.Pairwise fun a b => a.deltaMillis ≤ b.deltaMillis) ∧
       (∃ cell ∈ allCells ds.chunks, ∃ e ∈ cell,
          ds.startMillis = ds.epochMillis + e.deltaMillis ∧
          ∀ cell2 ∈ allCells ds.chunks, ∀ e2 ∈ cell2,
            e.deltaMillis ≤ e2.deltaMillis) ∧
       (∃ r ∈ c5Records, ds.endMillis = r.timestampMillis ∧
          ∀ r2 ∈ c5Records, r2.timestampMillis ≤ r.timestampMillis)) := by
  have hds : ingestRecords 4 0 c5Records =
      some ((ingestRecords 4 0 c5Records).getD (initialDataset 4 0)) := rfl
  refine ⟨by decide, by decide, by decide, by decide,
    (ingestRecords 4 0 c5Records).getD (initialDataset 4 0), hds, ?_⟩
  exact finalize_invariants 4 0 c5Records (by decide) (by decide) (by decide)
    (by decide) _ hds

/-! ## C3 — shard header validation -/

/-- A stand-in for `time.Parse` in the C3 runs; the lines involved never
reach the timestamp parser, so its behavior is irrelevant. -/
def c3TimeParse : String → Except String Int := fun _ => .error "unused"

/-- C3 counterexample: a shard whose first line is `",,,,"` — not the
expected header — is not rejected.  `download` forwards the mismatched
first line as data, `parseLine2017` hits the empty-coordinate skip path
(`return nil, nil`), and the run completes and produces an Index. -/
theorem header_mismatch_not_abort_counterexample :
    ",,,," ≠ header2017 ∧
    ∃ ds, downloadRun (source2017 c3TimeParse) [[",,,,"]] = .ok ds := by
  refine ⟨by decide, ?_⟩
  exact ⟨(downloadRun (source2017 c3TimeParse) [[",,,,"]]).toOption.getD
    (initialDataset 1001 0), rfl⟩

/-- Rejecting the head of the line stream fails the shard immediately. -/
theorem processLines_error_head (parse : String → Except String (List RawRecord))
    (pd : PartialDataset) (firstLine : String) (rest : List String) (e : String)
    (hparse : parse firstLine = .error e) :
    processLines parse pd (firstLine :: rest) = .error e := by
  unfold processLines
  rw [hparse]

/-- If one position of an `Except` fold fails from every state, the whole
fold fails. -/
theorem foldlM_except_error {α β : Type}
    (f : β → α → Except String β) (l : List α) (k : Nat) (hk : k < l.length)
    (herr : ∀ b, ∃ e, f b l[k] = .error e) :
    ∀ init, ∃ e, l.foldlM f init = .error e := by
  induction l generalizing k with
  | nil => cases hk
  | cons x xs ih =>
    intro init
    cases k with
    | zero =>
      obtain ⟨e, he⟩ := herr init
      rw [List.getElem_cons_zero] at he
      refine ⟨e, ?_⟩
      rw [List.foldlM_cons, he]
      rfl
    | succ k =>
      cases hfx : f init x with
      | error e =>
        refine ⟨e, ?_⟩
        rw [List.foldlM_cons, hfx]
        rfl
      | ok b =>
        obtain ⟨e, he⟩ := ih k (by simpa using hk)
          (fun b2 => by simpa using herr b2) b
        refine ⟨e, ?_⟩
        rw [List.foldlM_cons, hfx]
        exact he

/-- C3 (amended): a shard's first line is skipped only when it equals the
expected header; a differing first line is forwarded to the line parser as
data, and when the parser rejects it — the typical fate of actual header
text of the wrong format — the whole run aborts with an error and no Index
is produced.  (A mismatched first line that the parser accepts is silently
ingested; see the counterexample.) -/
theorem header_mismatch_aborts_via_parse_failure (src : SourceModel)
    (shards : List (List String)) (k : Nat) (hk : k < shards.length)
    (firstLine : String) (rest : List String)
    (hshard : shards[k] = firstLine :: rest)
    (hmismatch : firstLine ≠ src.header)
    (e : String) (hparse : src.parseLine firstLine = .error e) :
    ∃ e2, downloadRun src shards = .error e2 := by
  have herr : ∀ pd : PartialDataset, ∃ e2,
      processLines src.parseLine pd (shardDataLines src.header shards[k]) =
        .error e2 := by
    intro pd
    rw [hshard]
    simp only [shardDataLines]
    rw [if_neg hmismatch]
    exact ⟨e, processLines_error_head _ _ _ _ _ hparse⟩
  obtain ⟨e2, he2⟩ := foldlM_except_error
    (fun pd shard => processLines src.parseLine pd (shardDataLines src.header shard))
    shards k hk herr
    { ds := initialDataset src.canvasSize src.epochMillis, users := [], colors := [] }
  refine ⟨e2, ?_⟩
  unfold downloadRun
  rw [he2]

/-- C3 witness: a one-shard run whose first line has the wrong column
count. -/
theorem header_mismatch_aborts_via_parse_failure_witness :
    (0 : Nat) < ([["ts,bad"]] : List (List String)).length ∧
    ([["ts,bad"]] : List (List String))[0] = "ts,bad" :: [] ∧
    "ts,bad" ≠ (source2017 c3TimeParse).header ∧
    (source2017 c3TimeParse).parseLine "ts,bad" = .error "columns" ∧
    ∃ e2, downloadRun (source2017 c3TimeParse) [["ts,bad"]] = .error e2 := by
  have hparse : (source2017 c3TimeParse).parseLine "ts,bad" = .error "columns" := rfl
  refine ⟨by decide, rfl, by decide, hparse, ?_⟩
  exact header_mismatch_aborts_via_parse_failure (source2017 c3TimeParse)
    [["ts,bad"]] 0 (by decide) "ts,bad" [] rfl (by decide) "columns" hparse

/-! ## C7 — timelapse buckets -/

/-- The inner loop drains exactly the records strictly before the edge
(`takeWhile`), writing them in order, and leaves the rest (`dropWhile`). -/
theorem consumeBucket_eq (e : Int) (p : List TLRecord) (px : List Nat) :
    consumeBucket e p px =
      (applyRecords px (p.takeWhile fun r => r.unixMillis < e),
       p.dropWhile fun r => r.unixMillis < e) := by
  induction p generalizing px with
  | nil => rfl
  | cons r rest ih =>
    rw [consumeBucket]
    by_cases hr : e ≤ r.unixMillis
    · rw [if_pos hr, List.takeWhile_cons, List.dropWhile_cons]
      have hd : decide (r.unixMillis < e) = false := by
        simp only [decide_eq_false_iff_not]
        omega
      rw [hd]
      rfl
    · rw [if_neg hr, ih, List.takeWhile_cons, List.dropWhile_cons]
      have hd : decide (r.unixMillis < e) = true := by
        simp only [decide_eq_true_eq]
        omega
      rw [hd]
      rfl

theorem applyRecords_append (px : List Nat) (a b : List TLRecord) :
    applyRecords px (a ++ b) = applyRecords (applyRecords px a) b := by
  simp [applyRecords, List.foldl_append]

/-- On a sorted record list, the records before an edge form a prefix. -/
theorem filter_eq_takeWhile_of_sorted (p : List TLRecord) (e : Int)
    (hs : p.Pairwise fun a b => a.unixMillis ≤ b.unixMillis) :
    p.filter (fun r => r.unixMillis < e) =
      p.takeWhile fun r => r.unixMillis < e := by
  induction p with
  | nil => rfl
  | cons r rest ih =>
    rw [List.filter_cons, List.takeWhile_cons]
    by_cases hr : r.unixMillis < e
    · have hd : decide (r.unixMillis < e) = true := by
        simp only [decide_eq_true_eq]
        omega
      rw [hd]
      simp only [if_true]
      rw [ih (List.pairwise_cons.mp hs).2]
    · have hd : decide (r.unixMillis < e) = false := by
        simp only [decide_eq_false_iff_not]
        omega
      rw [hd]
      simp only [Bool.false_eq_true, if_false]
      rw [List.filter_eq_nil_iff.mpr]
      intro a ha
      have := (List.pairwise_cons.mp hs).1 a ha
      simp only [decide_eq_true_eq]
      omega

/-- Every record left after draining a bucket is at or past its edge. -/
theorem dropWhile_ge (p : List TLRecord) (e : Int)
    (hs : p.Pairwise fun a b => a.unixMillis ≤ b.unixMillis) :
    ∀ r ∈ p.dropWhile (fun r => r.unixMillis < e), e ≤ r.unixMillis := by
  induction p with
  | nil => intro r h; cases h
  | cons r0 rest ih =>
    rw [List.dropWhile_cons]
    by_cases hr : r0.unixMillis < e
    · have hd : decide (r0.unixMillis < e) = true := by
        simp only [decide_eq_true_eq]
        omega
      rw [hd]
      simp only [if_true]
      exact ih (List.pairwise_cons.mp hs).2
    · have hd : decide (r0.unixMillis < e) = false := by
        simp only [decide_eq_false_iff_not]
        omega
      rw [hd]
      simp only [Bool.false_eq_true, if_false]
      intro r hmem
      rcases List.mem_cons.mp hmem with rfl | hmem2
      · omega
      · have := (List.pairwise_cons.mp hs).1 r hmem2
        omega

/-- Every bucket edge of a pending list bounded below by `lb` is at least
`lb + width`. -/
theorem bucketEdges_ge (widthMillis : Int) :
    ∀ (fuel : Nat) (pending : List TLRecord) (lb : Int),
      (∀ r ∈ pending, lb ≤ r.unixMillis) →
      ∀ i, i < (bucketEdges widthMillis fuel pending).length →
        lb + widthMillis ≤ (bucketEdges widthMillis fuel pending).getD i 0 := by
  intro fuel
  induction fuel with
  | zero => intro pending lb _ i hi; cases hi
  | succ fuel ih =>
    intro pending lb hlb i hi
    match pending with
    | [] => cases hi
    | r :: rest =>
      rw [bucketEdges] at hi ⊢
      cases i with
      | zero =>
        have := hlb r (List.mem_cons_self _ _)
        simp only [List.getD_cons_zero]
        omega
      | succ i =>
        simp only [List.getD_cons_succ]
        simp only [List.length_cons, Nat.succ_lt_succ_iff] at hi
        have hsub : ∀ x ∈ (r :: rest).dropWhile
            (fun x => x.unixMillis < r.unixMillis + widthMillis),
            lb ≤ x.unixMillis := by
          intro x hx
          exact hlb x ((List.dropWhile_sublist _).mem hx)
        exact ih _ lb hsub i hi

/-- The outer loop, relative to any starting buffer: frame `i` is the
buffer with every pending record strictly before bucket edge `i`
applied. -/
theorem renderLoop_spec (w : Int) (hw : 0 < w) :
    ∀ (n fuel : Nat) (pending : List TLRecord) (px : List Nat),
      pending.length ≤ n → pending.length ≤ fuel →
      pending.Pairwise (fun a b => a.unixMillis ≤ b.unixMillis) →
      (renderLoop w fuel pending px).length =
        (bucketEdges w fuel pending).length ∧
      ∀ i, i < (renderLoop w fuel pending px).length →
        (renderLoop w fuel pending px).getD i [] =
          applyRecords px (pending.filter fun r =>
            r.unixMillis < (bucketEdges w fuel pending).getD i 0) := by
  intro n
  induction n with
  | zero =>
    intro fuel pending px hn _ _
    have hp : pending = [] := List.eq_nil_of_length_eq_zero (Nat.le_zero.mp hn)
    subst hp
    cases fuel with
    | zero => exact ⟨rfl, fun i hi => by simp [renderLoop] at hi⟩
    | succ f => exact ⟨rfl, fun i hi => by simp [renderLoop] at hi⟩
  | succ n ih =>
    intro fuel pending px hn hf hs
    match pending, fuel with
    | [], 0 => exact ⟨rfl, fun i hi => by simp [renderLoop] at hi⟩
    | [], fuel + 1 => exact ⟨rfl, fun i hi => by simp [renderLoop] at hi⟩
    | r :: rest, 0 => exact absurd hf (by simp)
    | r :: rest, fuel + 1 =>
      have hstep := consumeBucket_eq (r.unixMillis + w) (r :: rest) px
      have hframes : renderLoop w (fuel + 1) (r :: rest) px =
          applyRecords px ((r :: rest).takeWhile fun x =>
              x.unixMillis < r.unixMillis + w) ::
            renderLoop w fuel
              ((r :: rest).dropWhile fun x => x.unixMillis < r.unixMillis + w)
              (applyRecords px ((r :: rest).takeWhile fun x =>
                x.unixMillis < r.unixMillis + w)) := by
        simp only [renderLoop]
        rw [hstep]
      have hedges : bucketEdges w (fuel + 1) (r :: rest) =
          (r.unixMillis + w) ::
            bucketEdges w fuel
              ((r :: rest).dropWhile fun x => x.unixMillis < r.unixMillis + w) := by
        rw [bucketEdges]
      have hdw : (r :: rest).dropWhile (fun x => x.unixMillis < r.unixMillis + w) =
          rest.dropWhile fun x => x.unixMillis < r.unixMillis + w := by
        rw [List.dropWhile_cons]
        have hd : decide (r.unixMillis < r.unixMillis + w) = true := by
          simp only [decide_eq_true_eq]
          omega
        rw [hd]
        simp
      have hlendw : ((r :: rest).dropWhile
          (fun x => x.unixMillis < r.unixMillis + w)).length ≤ rest.length := by
        rw [hdw]
        exact (List.dropWhile_sublist _).length_le
      have hsdw : ((r :: rest).dropWhile
          (fun x => x.unixMillis < r.unixMillis + w)).Pairwise
          (fun a b => a.unixMillis ≤ b.unixMillis) :=
        List.Pairwise.sublist (List.dropWhile_sublist _) hs
      have hihyp := ih fuel
        ((r :: rest).dropWhile fun x => x.unixMillis < r.unixMillis + w)
        (applyRecords px ((r :: rest).takeWhile fun x =>
          x.unixMillis < r.unixMillis + w))
        (by simp only [List.length_cons, Nat.succ_le_succ_iff] at hn; omega)
        (by simp only [List.length_cons, Nat.succ_le_succ_iff] at hf; omega)
        hsdw
      constructor
      · rw [hframes, hedges]
        simp only [List.length_cons, hihyp.1]
      · intro i hi
        cases i with
        | zero =>
          rw [hframes, hedges]
          simp only [List.getD_cons_zero]
          rw [filter_eq_takeWhile_of_sorted _ _ hs]
        | succ i =>
          rw [hframes, hedges]
          simp only [List.getD_cons_succ]
          have hi2 : i < (renderLoop w fuel
              ((r :: rest).dropWhile fun x => x.unixMillis < r.unixMillis + w)
              (applyRecords px ((r :: rest).takeWhile fun x =>
                x.unixMillis < r.unixMillis + w))).length := by
            rw [hframes] at hi
            simpa using hi
          rw [hihyp.2 i hi2]
          -- rebuild the cumulative filter over the original pending list
          have hedge_ge : r.unixMillis + w + w ≤
              (bucketEdges w fuel ((r :: rest).dropWhile fun x =>
                x.unixMillis < r.unixMillis + w)).getD i 0 := by
            apply bucketEdges_ge w fuel _ (r.unixMillis + w)
              (dropWhile_ge _ _ hs)
            rw [← hihyp.1]
            exact hi2
          set e2 := (bucketEdges w fuel ((r :: rest).dropWhile fun x =>
            x.unixMillis < r.unixMillis + w)).getD i 0 with he2
          have hsplit : (r :: rest) =
              ((r :: rest).takeWhile fun x => x.unixMillis < r.unixMillis + w) ++
              ((r :: rest).dropWhile fun x => x.unixMillis < r.unixMillis + w) :=
            (List.takeWhile_append_dropWhile _ _).symm
          have hflt : (r :: rest).filter (fun x => x.unixMillis < e2) =
              ((r :: rest).takeWhile fun x => x.unixMillis < r.unixMillis + w) ++
              (((r :: rest).dropWhile fun x =>
                x.unixMillis < r.unixMillis + w).filter
                  fun x => x.unixMillis < e2) := by
            conv_lhs => rw [hsplit]
            rw [List.filter_append]
            congr 1
            apply List.filter_eq_self.mpr
            intro a ha
            have := List.mem_takeWhile_imp ha
            simp only [decide_eq_true_eq] at this ⊢
            omega
          rw [hflt, applyRecords_append]

/-- C7: over sorted records and a positive aggregation width, each
timelapse frame reflects exactly the records with timestamp strictly
before that bucket's upper edge (the first pending record's timestamp plus
the width); in particular, rendering `(t=0,(0,0),red)` and
`(t=120,(0,0),blue)` with a 100 ms bucket width produces a first frame
showing red (palette index 5) and a second frame showing blue (palette
index 13) at `(0,0)`. -/
theorem timelapse_bucket_frames (records : List TLRecord) (widthMillis : Int)
    (hw : 0 < widthMillis)
    (hsorted : records.Pairwise fun a b => a.unixMillis ≤ b.unixMillis) :
    ((renderLoop widthMillis records.length records initialTimelapsePixels).length =
        (bucketEdges widthMillis records.length records).length ∧
      ∀ i, i < (renderLoop widthMillis records.length records
          initialTimelapsePixels).length →
        (renderLoop widthMillis records.length records
            initialTimelapsePixels).getD i [] =
          applyRecords initialTimelapsePixels (records.filter fun r =>
            r.unixMillis <
              (bucketEdges widthMillis records.length records).getD i 0)) ∧
    (∃ fs, renderFrames c7Records 100 = some fs ∧
      (fs.getD 0 []).getD 0 0 = 5 ∧ (fs.getD 1 []).getD 0 0 = 13) := by
  constructor
  · exact renderLoop_spec widthMillis hw records.length records.length records
      initialTimelapsePixels le_rfl le_rfl hsorted
  · exact ⟨(renderFrames c7Records 100).getD [], rfl, rfl, rfl⟩

/-- C7 witness: the theorem applied to the example records with the
100 ms width. -/
theorem timelapse_bucket_frames_witness :
    (0 : Int) < 100 ∧
    (c7Records.Pairwise fun a b => a.unixMillis ≤ b.unixMillis) ∧
    (((renderLoop 100 c7Records.length c7Records initialTimelapsePixels).length =
        (bucketEdges 100 c7Records.length c7Records).length ∧
      ∀ i, i < (renderLoop 100 c7Records.length c7Records
          initialTimelapsePixels).length →
        (renderLoop 100 c7Records.length c7Records
            initialTimelapsePixels).getD i [] =
          applyRecords initialTimelapsePixels (c7Records.filter fun r =>
            r.unixMillis <
              (bucketEdges 100 c7Records.length c7Records).getD i 0)) ∧
    (∃ fs, renderFrames c7Records 100 = some fs ∧
      (fs.getD 0 []).getD 0 0 = 5 ∧ (fs.getD 1 []).getD 0 0 = 13)) :=
  ⟨by decide, by decide, timelapse_bucket_frames c7Records 100 (by decide) (by decide)⟩

/-! ## C1 — tile snapshot sampling -/

/-- The backwards cell scan finds the last element passing the test. -/
theorem reverse_find_eq_filter_getLast {α : Type} (l : List α) (p : α → Bool) :
    l.reverse.find? p = (l.filter p).getLast? := by
  induction l with
  | nil => rfl
  | cons a t ih =>
    rw [List.reverse_cons, List.find?_append, ih, List.filter_cons]
    cases hpa : p a with
    | false =>
      simp only [List.find?, hpa, Bool.false_eq_true, if_false]
      cases hft : (t.filter p).getLast? <;> rfl
    | true =>
      simp only [List.find?, hpa, if_true]
      cases hft : t.filter p with
      | nil => rfl
      | cons b bt =>
        rw [List.getLast?_cons_cons]
        obtain ⟨x, hx⟩ : ∃ x, (b :: bt).getLast? = some x :=
          ⟨(b :: bt).getLast (by simp), List.getLast?_eq_getLast _ _⟩
        rw [hx]
        rfl

/-- Reading the shared pixel buffer at in-range coordinates. -/
theorem tilePixels_getD (ds : Dataset) (r c : Nat)
    (hr : r < ds.chunkStride * 256) (hc : c < ds.chunkStride * 256) :
    ((tilePixels ds).getD r []).getD c 0 =
      snapshotCellColor (lastNonwhitePixel ds) (ds.At r c) := by
  unfold tilePixels
  have h1 : ((List.range (ds.chunkStride * 256)).map fun r =>
      (List.range (ds.chunkStride * 256)).map fun c =>
        snapshotCellColor (lastNonwhitePixel ds) (ds.At r c)).getD r [] =
      (List.range (ds.chunkStride * 256)).map fun c =>
        snapshotCellColor (lastNonwhitePixel ds) (ds.At r c) := by
    rw [getD_eq_getElem _ _ _ (by simpa using hr), List.getElem_map,
      List.getElem_range]
  rw [h1, getD_eq_getElem _ _ _ (by simpa using hc), List.getElem_map,
    List.getElem_range]

/-- The cutoff scan is the flat event fold. -/
theorem lastNonwhitePixel_eq_foldl (ds : Dataset) :
    lastNonwhitePixel ds = ((allCells ds.chunks).flatten).foldl nwStep 0 := by
  unfold lastNonwhitePixel allCells
  rw [List.foldl_flatten, List.foldl_flatten, List.foldl_map]
  congr 1
  funext acc ch
  rw [List.foldl_flatten]

/-- The cutoff fold never drops below its initial accumulator. -/
theorem foldl_nwStep_ge_init (evs : List PixelEvent) (init : Int) :
    init ≤ evs.foldl nwStep init := by
  induction evs generalizing init with
  | nil => simp
  | cons ev rest ih =>
    refine le_trans ?_ (ih (nwStep init ev))
    unfold nwStep
    split
    · split <;> omega
    · exact le_refl _

/-- The cutoff fold bounds every non-neutral event's delta. -/
theorem foldl_nwStep_ge (evs : List PixelEvent) (init : Int) :
    ∀ ev ∈ evs, 2 < ev.colorIndex →
      ev.deltaMillis ≤ evs.foldl nwStep init := by
  induction evs generalizing init with
  | nil => intro ev h; cases h
  | cons ev0 rest ih =>
    intro ev hmem hnn
    rw [List.foldl_cons]
    rcases List.mem_cons.mp hmem with rfl | hmem2
    · refine le_trans ?_ (foldl_nwStep_ge_init rest _)
      unfold nwStep
      rw [if_pos hnn]
      split <;> omega
    · exact ih _ ev hmem2 hnn

/-- The cutoff fold is its initial value or some non-neutral event's
delta. -/
theorem foldl_nwStep_attained (evs : List PixelEvent) (init : Int) :
    evs.foldl nwStep init = init ∨
    ∃ ev ∈ evs, 2 < ev.colorIndex ∧ evs.foldl nwStep init = ev.deltaMillis := by
  induction evs generalizing init with
  | nil => left; rfl
  | cons ev0 rest ih =>
    rw [List.foldl_cons]
    rcases ih (nwStep init ev0) with h | ⟨ev, hm, hnn, heq⟩
    · rw [h]
      unfold nwStep
      by_cases hnn0 : 2 < ev0.colorIndex
      · rw [if_pos hnn0]
        by_cases hlt : init < ev0.deltaMillis
        · right
          exact ⟨ev0, List.mem_cons_self _ _, hnn0, by rw [if_pos hlt]⟩
        · left
          rw [if_neg hlt]
      · left
        rw [if_neg hnn0]
    · right
      exact ⟨ev, List.mem_cons_of_mem _ hm, hnn, heq⟩

/-- C1: for every tile pixel sampling an in-bounds canvas coordinate, the
color the tile renderer samples is the palette color of the last event at
that cell whose delta-time is at or before the canvas-wide pre-whitening
cutoff; and (over a canvas with non-negative deltas and at least one
non-neutral event) that cutoff is exactly the latest delta-time of any
event whose color is not one of the reserved neutral palette slots 0-2 —
events after the cutoff never affect the snapshot. -/
theorem tile_sampled_color (ds : Dataset) (tx ty tw th z x y pX pY : Nat)
    (hpX : pX = x * ds.chunkStride / 2 ^ z)
    (hpY : pY = y * ds.chunkStride / 2 ^ z)
    (hx : pX < ds.size) (hy : pY < ds.size)
    (hsize : ds.size ≤ ds.chunkStride * 256)
    (e : PixelEvent)
    (he : ((ds.At pY pX).filter fun ev =>
        ev.deltaMillis ≤ lastNonwhitePixel ds).getLast? = some e)
    (hpos : ∀ cell ∈ allCells ds.chunks, ∀ ev ∈ cell, 0 ≤ ev.deltaMillis)
    (hex : ∃ cell ∈ allCells ds.chunks, ∃ ev ∈ cell, 2 < ev.colorIndex) :
    (handlerWindow ds tx ty tw th z).At x y =
      paletteColor ds.palette e.colorIndex ∧
    (∃ cell ∈ allCells ds.chunks, ∃ ev ∈ cell, 2 < ev.colorIndex ∧
        ev.deltaMillis = lastNonwhitePixel ds) ∧
    (∀ cell ∈ allCells ds.chunks, ∀ ev ∈ cell, 2 < ev.colorIndex →
        ev.deltaMillis ≤ lastNonwhitePixel ds) := by
  subst hpX
  subst hpY
  refine ⟨?_, ?_, ?_⟩
  · have hAt : (handlerWindow ds tx ty tw th z).At x y =
        if ds.size ≤ y * ds.chunkStride / 2 ^ z ∨
            ds.size ≤ x * ds.chunkStride / 2 ^ z
        then transparentWhite
        else paletteColor ds.palette
          (((tilePixels ds).getD (y * ds.chunkStride / 2 ^ z) []).getD
            (x * ds.chunkStride / 2 ^ z) 0) := rfl
    rw [hAt, if_neg (by omega)]
    rw [tilePixels_getD ds _ _ (by omega) (by omega)]
    have hsnap : snapshotCellColor (lastNonwhitePixel ds)
        (ds.At (y * ds.chunkStride / 2 ^ z) (x * ds.chunkStride / 2 ^ z)) =
        e.colorIndex := by
      unfold snapshotCellColor lastPreCutoff
      rw [reverse_find_eq_filter_getLast, he]
    rw [hsnap]
  · rw [lastNonwhitePixel_eq_foldl]
    rcases foldl_nwStep_attained ((allCells ds.chunks).flatten) 0 with
      hzero | ⟨ev, hm, hnn, heq⟩
    · obtain ⟨cell0, hc0, ev0, he0, hnn0⟩ := hex
      have hge := foldl_nwStep_ge ((allCells ds.chunks).flatten) 0 ev0
        (List.mem_flatten.mpr ⟨cell0, hc0, he0⟩) hnn0
      have hp := hpos cell0 hc0 ev0 he0
      refine ⟨cell0, hc0, ev0, he0, hnn0, ?_⟩
      omega
    · obtain ⟨cell, hcell, hev⟩ := List.mem_flatten.mp hm
      exact ⟨cell, hcell, ev, hev, hnn, heq.symm⟩
  · intro cell hcell ev hev hnn
    rw [lastNonwhitePixel_eq_foldl]
    exact foldl_nwStep_ge ((allCells ds.chunks).flatten) 0 ev
      (List.mem_flatten.mpr ⟨cell, hcell, hev⟩) hnn

/-- A one-cell dataset for the C1 witness: a non-neutral event at delta 5
followed by a neutral redraw at delta 10 (ignored by the snapshot). -/
def c1Dataset : Dataset :=
  { version := datasetVersion
    size := 4
    palette := [⟨255, 255, 255, 255⟩, ⟨228, 228, 228, 255⟩, ⟨136, 136, 136, 255⟩,
                ⟨34, 34, 34, 255⟩, ⟨255, 167, 209, 255⟩]
    epochMillis := 0
    startMillis := 0
    endMillis := 0
    chunkStride := 1
    userIDs := []
    chunks := [{ width := 4, height := 4,
                 pixels := [[[{ deltaMillis := 5, userIndex := 0, colorIndex := 4 },
                              { deltaMillis := 10, userIndex := 0, colorIndex := 1 }]]] }] }

/-- C1 witness: the sampling theorem at tile pixel (0,0), zoom 0. -/
theorem tile_sampled_color_witness :
    (0 : Nat) = 0 * c1Dataset.chunkStride / 2 ^ 0 ∧
    (0 : Nat) < c1Dataset.size ∧
    c1Dataset.size ≤ c1Dataset.chunkStride * 256 ∧
    ((c1Dataset.At 0 0).filter fun ev =>
        ev.deltaMillis ≤ lastNonwhitePixel c1Dataset).getLast? =
      some { deltaMillis := 5, userIndex := 0, colorIndex := 4 } ∧
    (∀ cell ∈ allCells c1Dataset.chunks, ∀ ev ∈ cell, 0 ≤ ev.deltaMillis) ∧
    (∃ cell ∈ allCells c1Dataset.chunks, ∃ ev ∈ cell, 2 < ev.colorIndex) ∧
    (handlerWindow c1Dataset 0 0 64 64 0).At 0 0 =
      paletteColor c1Dataset.palette 4 := by
  refine ⟨rfl, by decide, by decide, by decide, by decide, by decide, ?_⟩
  have h := tile_sampled_color c1Dataset 0 0 64 64 0 0 0 0 0
    rfl rfl (by decide) (by decide) (by decide)
    { deltaMillis := 5, userIndex := 0, colorIndex := 4 }
    (by decide) (by decide) (by decide)
  exact h.1
